import Mathlib

/-!
# Cluster3DPCACalculator

A shallow embedding of
`RecoParticleFlow/PFClusterProducer/src/Cluster3DPCACalculator.cc`
and theorems about it.

## Conventions of the embedding

* A C++ `double` is a value of `Dbl`: a rational number, `+inf`, `-inf` or NaN.
  The special values follow IEEE 754.  On finite values `Dbl.add`, `Dbl.mul` and
  `Dbl.div` return the exact result: the rounding of a result to the nearest
  double, and with it overflow and underflow, is not modelled.  The theorems of
  the claims therefore speak of a sum, a product or a quotient as the value the
  operation returns (`rh_energy rhf`, the running sum of line 92, the quotient of
  line 96) and relate outputs to these values; where a statement needs the exact
  value it says so in a hypothesis (`ExactlySummed`).  The examples use numbers on
  which IEEE arithmetic loses nothing either.  Zero carries no sign; the sign of a
  zero only shows in the sign of an infinite quotient on division by zero.
* The conversion `unsigned(x)` truncates towards zero.  Where the truncated
  value does not fit 32 bits the C++ behaviour is not defined; the embedding
  takes the value produced there from the environment (`Env.castOutOfRange`).
* `TPrincipal` is the ROOT class; its state is the list of rows added so far.
  What `GetMeanValues` and `GetEigenVectors` return after `MakePrincipals` is
  taken from the environment as a function of the rows.
* Exceptions are explicit: an operation returns the state it leaves behind
  together with the exception it threw, if any.
* The `std::cout` lines of the source are not modelled.
-/

namespace Cluster3DPCA

/-! ## Doubles -/

/-- A C++ `double`: finite values are rationals. -/
inductive Dbl where
  | fin (q : ℚ)
  | pinf
  | ninf
  | nan
deriving DecidableEq

namespace Dbl

/-- Unary minus. -/
def neg : Dbl → Dbl
  | fin q => fin (-q)
  | pinf => ninf
  | ninf => pinf
  | nan => nan

/-- IEEE addition; on finite values the exact sum, the rounding to a double is not
modelled. -/
def add : Dbl → Dbl → Dbl
  | fin a, fin b => fin (a + b)
  | fin _, pinf => pinf
  | fin _, ninf => ninf
  | fin _, nan => nan
  | pinf, fin _ => pinf
  | pinf, pinf => pinf
  | pinf, ninf => nan
  | pinf, nan => nan
  | ninf, fin _ => ninf
  | ninf, pinf => nan
  | ninf, ninf => ninf
  | ninf, nan => nan
  | nan, _ => nan

/-- IEEE multiplication; on finite values the exact product, the rounding to a double
is not modelled. -/
def mul : Dbl → Dbl → Dbl
  | fin a, fin b => fin (a * b)
  | fin a, pinf => if a = 0 then nan else if a < 0 then ninf else pinf
  | fin a, ninf => if a = 0 then nan else if a < 0 then pinf else ninf
  | fin _, nan => nan
  | pinf, fin b => if b = 0 then nan else if b < 0 then ninf else pinf
  | pinf, pinf => pinf
  | pinf, ninf => ninf
  | pinf, nan => nan
  | ninf, fin b => if b = 0 then nan else if b < 0 then pinf else ninf
  | ninf, pinf => ninf
  | ninf, ninf => pinf
  | ninf, nan => nan
  | nan, _ => nan

/-- IEEE division; on finite values with a non-zero divisor the exact quotient, the
rounding to a double is not modelled. -/
def div : Dbl → Dbl → Dbl
  | fin a, fin b =>
    if b = 0 then (if a = 0 then nan else if a < 0 then ninf else pinf) else fin (a / b)
  | fin _, pinf => fin 0
  | fin _, ninf => fin 0
  | fin _, nan => nan
  | pinf, fin b => if b < 0 then ninf else pinf
  | pinf, pinf => nan
  | pinf, ninf => nan
  | pinf, nan => nan
  | ninf, fin b => if b < 0 then pinf else ninf
  | ninf, pinf => nan
  | ninf, ninf => nan
  | ninf, nan => nan
  | nan, _ => nan

/-- The comparison `x < y`; false when either side is NaN. -/
def lt : Dbl → Dbl → Bool
  | fin a, fin b => decide (a < b)
  | fin _, pinf => true
  | fin _, ninf => false
  | fin _, nan => false
  | pinf, _ => false
  | ninf, fin _ => true
  | ninf, pinf => true
  | ninf, ninf => false
  | ninf, nan => false
  | nan, _ => false

/-- The comparison `x > y`, which C++ evaluates as `y < x`. -/
def gt (x y : Dbl) : Bool := lt y x

/-- The comparison `x >= y`; false when either side is NaN. -/
def ge : Dbl → Dbl → Bool
  | fin a, fin b => decide (b ≤ a)
  | fin _, pinf => false
  | fin _, ninf => true
  | fin _, nan => false
  | pinf, fin _ => true
  | pinf, pinf => true
  | pinf, ninf => true
  | pinf, nan => false
  | ninf, fin _ => false
  | ninf, pinf => false
  | ninf, ninf => true
  | ninf, nan => false
  | nan, _ => false

end Dbl

/-- The function `edm::isNotFinite`: true for NaN and the infinities. -/
def isNotFinite : Dbl → Bool
  | Dbl.fin _ => false
  | _ => true

/-- The conversion `unsigned(x)` of a double to a 32-bit unsigned integer.  A value
whose truncation towards zero lies in `[0, 2^32)` converts to that truncation.  For every
other value C++ leaves the result open; it is then whatever 32-bit value `outOfRange`
gives. -/
def toUnsigned (outOfRange : Dbl → Nat) : Dbl → Nat
  | Dbl.fin q =>
    if -1 < q ∧ q < 4294967296 then (Int.tdiv q.num q.den).toNat
    else outOfRange (Dbl.fin q) % 4294967296
  | x => outOfRange x % 4294967296

/-! ## Data model -/

/-- A detector identifier: the raw 32-bit id; 0 is the null id. -/
abbrev DetId := Nat

namespace PFLayer

/-- The enumeration `PFLayer::Layer`: `NONE` and the detector layers. -/
inductive Layer where
  | NONE
  | det (code : Int)
deriving DecidableEq

end PFLayer

/-- A point `math::XYZPoint`. -/
structure XYZPoint where
  x : Dbl
  y : Dbl
  z : Dbl
deriving DecidableEq

/-- A vector `math::XYZVector`. -/
structure XYZVector where
  x : Dbl
  y : Dbl
  z : Dbl
deriving DecidableEq

/-- The operation `v *= a` on a vector. -/
def XYZVector.scale (v : XYZVector) (a : Dbl) : XYZVector :=
  ⟨Dbl.mul v.x a, Dbl.mul v.y a, Dbl.mul v.z a⟩

/-- The point in (rho, eta, phi) that `calculatePositionREP` stores. -/
structure REPPoint where
  rho : Dbl
  eta : Dbl
  phi : Dbl
deriving DecidableEq

/-- A rec hit `reco::PFRecHit`, as far as the calculator reads it. -/
structure PFRecHit where
  detId : DetId
  energy : Dbl
  position : XYZPoint
  layer : PFLayer.Layer
deriving DecidableEq

/-- A `reco::PFRecHitFraction`: a hit and the share of it given to the cluster. -/
structure PFRecHitFraction where
  recHitRef : PFRecHit
  fraction : Dbl
deriving DecidableEq

/-- A `reco::PFCluster`: the seed and hit fractions the clustering set, and the fields
the calculator writes. -/
structure PFCluster where
  seed : DetId
  recHitFractions : List PFRecHitFraction
  energy : Dbl
  time : Dbl
  layer : PFLayer.Layer
  position : XYZPoint
  axis : XYZVector
  posrep : REPPoint
deriving DecidableEq

/-- The two `cms::Exception`s of the source, by category, with what the message names. -/
inductive Exception where
  | ClusterWithNoSeed (cluster : PFCluster)
  | PFClusterAlgo (detId : DetId)
deriving DecidableEq

/-- A row `std::array<double,3>` handed to `TPrincipal::AddRow`. -/
structure Row where
  v0 : Dbl
  v1 : Dbl
  v2 : Dbl
deriving DecidableEq

/-- Entry `i` of a row. -/
def Row.get (r : Row) (i : Nat) : Dbl :=
  match i with
  | 0 => r.v0
  | 1 => r.v1
  | _ => r.v2

/-- The state of a `TPrincipal`: the rows added since the last `Clear`. -/
structure TPrincipal where
  rows : List Row
deriving DecidableEq

/-- The call `_pca.Clear()`. -/
def TPrincipal.Clear (_pca : TPrincipal) : TPrincipal := ⟨[]⟩

/-- The call `_pca.AddRow(p)`. -/
def TPrincipal.AddRow (pca : TPrincipal) (p : Row) : TPrincipal := ⟨pca.rows ++ [p]⟩

/-- What the source takes from outside this file. -/
structure Env where
  /-- the value of `unsigned(x)` where C++ does not define it -/
  castOutOfRange : Dbl → Nat
  /-- the vector `*(_pca.GetMeanValues())` after `MakePrincipals`, by index -/
  GetMeanValues : List Row → Nat → Dbl
  /-- the matrix `*(_pca.GetEigenVectors())` after `MakePrincipals`, by row and column -/
  GetEigenVectors : List Row → Nat → Nat → Dbl
  /-- the point that `PFCluster::calculatePositionREP` derives from the position -/
  positionREP : XYZPoint → REPPoint

/-- The calculator object: its three configured constants and its `TPrincipal`. -/
structure Cluster3DPCACalculator where
  _posCalcNCrystals : Int
  _logWeightDenom : Dbl
  _minAllowedNorm : Dbl
  _pca : TPrincipal
deriving DecidableEq

/-- The local variables of `calculateAndSetPositionActual` that live across the loop. -/
structure Locals where
  cl_energy : Dbl
  cl_time : Dbl
  cl_timeweight : Dbl
  max_e : Dbl
  max_e_layer : PFLayer.Layer
  refseed : Option PFRecHit
deriving DecidableEq

/-- What a call leaves behind: the calculator, the cluster, and the exception thrown. -/
structure Outcome where
  self : Cluster3DPCACalculator
  cluster : PFCluster
  thrown : Option Exception

/-- What a call on a collection leaves behind. -/
structure BatchOutcome where
  self : Cluster3DPCACalculator
  clusters : List PFCluster
  thrown : Option Exception

/-! ## The calculator -/

/-- The energy `rh_rawenergy * rh_fraction` of a hit fraction (line 86). -/
def rh_energy (rhf : PFRecHitFraction) : Dbl :=
  Dbl.mul rhf.recHitRef.energy rhf.fraction

/-- The row `pcavars` built from a hit (lines 93-95). -/
def pcavars (refhit : PFRecHit) : Row :=
  ⟨refhit.position.x, refhit.position.x, refhit.position.x⟩

/-- The bound `unsigned(rh_energy/_logWeightDenom)` of the loop in line 96: the
conversion of the quotient that `Dbl.div` returns. -/
def replicationCount (env : Env) (self : Cluster3DPCACalculator)
    (rhf : PFRecHitFraction) : Nat :=
  toUnsigned env.castOutOfRange (Dbl.div (rh_energy rhf) self._logWeightDenom)

/-- The loop of lines 96-98: `AddRow` is called `n` times with the same row. -/
def addRows (pca : TPrincipal) (p : Row) : Nat → TPrincipal
  | 0 => pca
  | n + 1 => addRows (pca.AddRow p) p n

/-- The loop over the hit fractions (lines 81-103), from given locals and calculator.
It stops at the first fraction whose energy is not finite. -/
def recHitLoop (env : Env) (seed : DetId) :
    List PFRecHitFraction → Locals → Cluster3DPCACalculator →
      Locals × Cluster3DPCACalculator × Option Exception
  | [], loc, self => (loc, self, none)
  | rhf :: rest, loc, self =>
    let refhit := rhf.recHitRef
    let loc1 : Locals :=
      if refhit.detId = seed then { loc with refseed := some refhit } else loc
    let e := rh_energy rhf
    if isNotFinite e then
      (loc1, self, some (Exception.PFClusterAlgo refhit.detId))
    else
      let loc2 : Locals := { loc1 with cl_energy := Dbl.add loc1.cl_energy e }
      let n := replicationCount env self rhf
      let self1 : Cluster3DPCACalculator :=
        { self with _pca := addRows self._pca (pcavars refhit) n }
      let loc3 : Locals :=
        if Dbl.gt e loc2.max_e then
          { loc2 with max_e := e, max_e_layer := rhf.recHitRef.layer }
        else loc2
      recHitLoop env seed rest loc3 self1

/-- The locals as declared in lines 68-73. -/
def initLocals : Locals :=
  { cl_energy := Dbl.fin 0, cl_time := Dbl.fin 0, cl_timeweight := Dbl.fin 0,
    max_e := Dbl.fin 0, max_e_layer := PFLayer.Layer.NONE, refseed := none }

/-- The sign convention of line 125. -/
def signAxis (axis : XYZVector) (barycenter : XYZPoint) : XYZVector :=
  if Dbl.lt (Dbl.mul axis.z barycenter.z) (Dbl.fin 0) then axis.scale (Dbl.fin (-1))
  else axis

/-- The function `Cluster3DPCACalculator::calculateAndSetPositionActual` (lines 62-130). -/
def calculateAndSetPositionActual (env : Env) (self : Cluster3DPCACalculator)
    (cluster : PFCluster) : Outcome :=
  if cluster.seed = 0 then
    ⟨self, cluster, some (Exception.ClusterWithNoSeed cluster)⟩
  else
    match recHitLoop env cluster.seed cluster.recHitFractions initLocals self with
    | (_, self1, some ex) => ⟨self1, cluster, some ex⟩
    | (loc, self1, none) =>
      let c1 : PFCluster := { cluster with energy := loc.cl_energy }
      let c2 : PFCluster := { c1 with time := Dbl.div loc.cl_time loc.cl_timeweight }
      let c3 : PFCluster := { c2 with layer := loc.max_e_layer }
      let means := env.GetMeanValues self1._pca.rows
      let eigens := env.GetEigenVectors self1._pca.rows
      let barycenter : XYZPoint := ⟨means 0, means 1, means 2⟩
      let axis : XYZVector := ⟨eigens 0 0, eigens 1 0, eigens 2 0⟩
      let axis1 := signAxis axis barycenter
      let c4 : PFCluster := { c3 with position := barycenter }
      let c5 : PFCluster := { c4 with axis := axis1 }
      let c6 : PFCluster := { c5 with posrep := env.positionREP c5.position }
      ⟨self1, c6, none⟩

/-- The function `Cluster3DPCACalculator::calculateAndSetPosition` (lines 48-52). -/
def calculateAndSetPosition (env : Env) (self : Cluster3DPCACalculator)
    (cluster : PFCluster) : Outcome :=
  calculateAndSetPositionActual env { self with _pca := self._pca.Clear } cluster

/-- The function `Cluster3DPCACalculator::calculateAndSetPositions` (lines 54-60): the
clusters are taken in order, and an exception leaves the rest of them untouched. -/
def calculateAndSetPositions (env : Env) (self : Cluster3DPCACalculator) :
    List PFCluster → BatchOutcome
  | [] => ⟨self, [], none⟩
  | cluster :: rest =>
    let r := calculateAndSetPositionActual env { self with _pca := self._pca.Clear } cluster
    match r.thrown with
    | some ex => ⟨r.self, r.cluster :: rest, some ex⟩
    | none =>
      let b := calculateAndSetPositions env r.self rest
      ⟨b.self, r.cluster :: b.clusters, b.thrown⟩

/-! ## The accumulator of the specification -/

/-- The sum of entry `i` over a list of rows, added up in order from zero. -/
def sumEntries (rows : List Row) (i : Nat) : Dbl :=
  (rows.map (fun r => r.get i)).foldl Dbl.add (Dbl.fin 0)

/-- Modelled from the spec: the mean that `finalize` of the WeightedPointAccumulator
returns, "the arithmetic mean of all accumulated points"; the class `TPrincipal` that
computes it is not part of this repository.  With no points it is `0/0`. -/
def arithmeticMean (rows : List Row) (i : Nat) : Dbl :=
  Dbl.div (sumEntries rows i) (Dbl.fin rows.length)

/-- An environment for evaluating examples: the mean is the arithmetic mean, the first
eigenvector is the given `axis` whatever the rows, a conversion out of range gives 0,
and the derived (rho, eta, phi) point is a fixed stand-in. -/
def sampleEnv (axis : Row) : Env :=
  { castOutOfRange := fun _ => 0
    GetMeanValues := arithmeticMean
    GetEigenVectors := fun _ i j => if j = 0 then axis.get i else Dbl.fin 0
    positionREP := fun _ => ⟨Dbl.fin 0, Dbl.fin 0, Dbl.fin 0⟩ }

/-- A calculator with the given `logWeightDenominator` and an empty accumulator. -/
def sampleCalculator (logWeightDenom : Dbl) : Cluster3DPCACalculator :=
  { _posCalcNCrystals := -1, _logWeightDenom := logWeightDenom,
    _minAllowedNorm := Dbl.fin 0, _pca := ⟨[]⟩ }

/-- A cluster with the given seed and hit fractions whose output fields are all zero. -/
def freshCluster (seed : DetId) (rhfs : List PFRecHitFraction) : PFCluster :=
  { seed := seed, recHitFractions := rhfs, energy := Dbl.fin 0, time := Dbl.fin 0,
    layer := PFLayer.Layer.NONE, position := ⟨Dbl.fin 0, Dbl.fin 0, Dbl.fin 0⟩,
    axis := ⟨Dbl.fin 0, Dbl.fin 0, Dbl.fin 0⟩,
    posrep := ⟨Dbl.fin 0, Dbl.fin 0, Dbl.fin 0⟩ }

/-! ## Functional descriptions of the loop -/

/-- The locals after the body of the loop has run for a fraction of finite energy. -/
def stepLocals (seed : DetId) (rhf : PFRecHitFraction) (loc : Locals) : Locals :=
  let loc1 : Locals :=
    if rhf.recHitRef.detId = seed then { loc with refseed := some rhf.recHitRef } else loc
  let loc2 : Locals := { loc1 with cl_energy := Dbl.add loc1.cl_energy (rh_energy rhf) }
  if Dbl.gt (rh_energy rhf) loc2.max_e then
    { loc2 with max_e := rh_energy rhf, max_e_layer := rhf.recHitRef.layer }
  else loc2

/-- The calculator after the body of the loop has run for a fraction of finite energy. -/
def stepSelf (env : Env) (rhf : PFRecHitFraction) (self : Cluster3DPCACalculator) :
    Cluster3DPCACalculator :=
  { self with
    _pca := addRows self._pca (pcavars rhf.recHitRef) (replicationCount env self rhf) }

/-- The fractions the loop goes through before it meets one of non-finite energy. -/
def finitePrefix (rhfs : List PFRecHitFraction) : List PFRecHitFraction :=
  rhfs.takeWhile (fun rhf => !isNotFinite (rh_energy rhf))

/-- The first fraction of non-finite energy, if there is one. -/
def firstNotFinite (rhfs : List PFRecHitFraction) : Option PFRecHitFraction :=
  rhfs.find? (fun rhf => isNotFinite (rh_energy rhf))

/-- The rows that the fractions of a list contribute, in order. -/
def replicatedRows (env : Env) (self : Cluster3DPCACalculator) :
    List PFRecHitFraction → List Row
  | [] => []
  | rhf :: rest =>
    List.replicate (replicationCount env self rhf) (pcavars rhf.recHitRef)
      ++ replicatedRows env self rest

/-- The locals after the loop has run through a list of fractions of finite energy. -/
def foldLocals (seed : DetId) (rhfs : List PFRecHitFraction) (loc : Locals) : Locals :=
  rhfs.foldl (fun acc rhf => stepLocals seed rhf acc) loc

/-- The cluster a call leaves when nothing is thrown, from the locals after the loop and
the rows held at `MakePrincipals`. -/
def writtenCluster (env : Env) (cluster : PFCluster) (loc : Locals) (rows : List Row) :
    PFCluster :=
  { seed := cluster.seed
    recHitFractions := cluster.recHitFractions
    energy := loc.cl_energy
    time := Dbl.div loc.cl_time loc.cl_timeweight
    layer := loc.max_e_layer
    position := ⟨env.GetMeanValues rows 0, env.GetMeanValues rows 1, env.GetMeanValues rows 2⟩
    axis :=
      signAxis
        ⟨env.GetEigenVectors rows 0 0, env.GetEigenVectors rows 1 0,
          env.GetEigenVectors rows 2 0⟩
        ⟨env.GetMeanValues rows 0, env.GetMeanValues rows 1, env.GetMeanValues rows 2⟩
    posrep :=
      env.positionREP
        ⟨env.GetMeanValues rows 0, env.GetMeanValues rows 1, env.GetMeanValues rows 2⟩ }

/-- The calculator a call leaves: the rows of the fractions met are added. -/
def selfAfter (env : Env) (self : Cluster3DPCACalculator) (cluster : PFCluster) :
    Cluster3DPCACalculator :=
  { self with
    _pca :=
      ⟨self._pca.rows ++ replicatedRows env self (finitePrefix cluster.recHitFractions)⟩ }

/-- Every fraction of the list has finite energy. -/
def AllFinite (rhfs : List PFRecHitFraction) : Prop :=
  ∀ rhf ∈ rhfs, isNotFinite (rh_energy rhf) = false

instance (rhfs : List PFRecHitFraction) : Decidable (AllFinite rhfs) := by
  unfold AllFinite; infer_instance

/-- A hit with the given identifier, energy, position and layer code. -/
def mkHit (id : DetId) (energy : ℚ) (x y z : ℚ) (layer : Int) : PFRecHit :=
  { detId := id, energy := Dbl.fin energy,
    position := ⟨Dbl.fin x, Dbl.fin y, Dbl.fin z⟩, layer := PFLayer.Layer.det layer }

/-- The cluster of the scenario in the specification: seed H1, the hit H1 of raw energy
10 at (1,0,0) with fraction 1, and the hit H2 of raw energy 4 at (5,0,0) with
fraction 1/2. -/
def scenarioCluster : PFCluster :=
  freshCluster 1 [⟨mkHit 1 10 1 0 0 1, Dbl.fin 1⟩, ⟨mkHit 2 4 5 0 0 2, Dbl.fin (1 / 2)⟩]

/-- A cluster without a seed whose only hit fraction has the energy NaN. -/
def noSeedCluster : PFCluster :=
  freshCluster 0
    [⟨{ detId := 5, energy := Dbl.nan, position := ⟨Dbl.fin 1, Dbl.fin 2, Dbl.fin 3⟩,
        layer := PFLayer.Layer.det 1 }, Dbl.fin 1⟩]

/-- A cluster whose seed 7 is the identifier of none of its hits: the only hit has the
identifier 1, raw energy 2 and fraction 1. -/
def strangerSeedCluster : PFCluster :=
  freshCluster 7 [⟨mkHit 1 2 1 0 0 1, Dbl.fin 1⟩]

/-- A cluster with seed 1 whose second hit fraction, of the hit 9, has an infinite
energy and whose third, of the hit 4, has the energy NaN. -/
def corruptCluster : PFCluster :=
  freshCluster 1
    [⟨mkHit 1 6 1 0 0 1, Dbl.fin 1⟩,
     ⟨{ detId := 9, energy := Dbl.pinf, position := ⟨Dbl.fin 1, Dbl.fin 2, Dbl.fin 3⟩,
        layer := PFLayer.Layer.det 1 }, Dbl.fin 1⟩,
     ⟨{ detId := 4, energy := Dbl.nan, position := ⟨Dbl.fin 1, Dbl.fin 2, Dbl.fin 3⟩,
        layer := PFLayer.Layer.det 1 }, Dbl.fin 1⟩]

/-- A cluster with seed 1 and the single hit 1 of raw energy 2 at (1,0,0), fraction 1. -/
def singleHitCluster : PFCluster :=
  freshCluster 1 [⟨mkHit 1 2 1 0 0 1, Dbl.fin 1⟩]

/-- A cluster with seed 1 and the single hit 1 of raw energy 1 at (1,0,0), fraction 1. -/
def faintCluster : PFCluster :=
  freshCluster 1 [⟨mkHit 1 1 1 0 0 1, Dbl.fin 1⟩]

/-- The scenario cluster with the y and z coordinates of its hits replaced: H1 at
(1,7,8) and H2 at (5,9,-3). -/
def movedScenarioCluster : PFCluster :=
  freshCluster 1 [⟨mkHit 1 10 1 7 8 1, Dbl.fin 1⟩, ⟨mkHit 2 4 5 9 (-3) 2, Dbl.fin (1 / 2)⟩]

/-- Two hit fractions that differ at most in the y and z coordinates of the hit. -/
def SameButYZ (a b : PFRecHitFraction) : Prop :=
  a.fraction = b.fraction ∧ a.recHitRef.detId = b.recHitRef.detId ∧
    a.recHitRef.energy = b.recHitRef.energy ∧ a.recHitRef.layer = b.recHitRef.layer ∧
    a.recHitRef.position.x = b.recHitRef.position.x

/-- Locals that agree in all but `refseed`. -/
def Locals.agree (a b : Locals) : Prop :=
  a.cl_energy = b.cl_energy ∧ a.cl_time = b.cl_time ∧ a.cl_timeweight = b.cl_timeweight ∧
    a.max_e = b.max_e ∧ a.max_e_layer = b.max_e_layer

end Cluster3DPCA

namespace Cluster3DPCA

/-! ## Lemmas on doubles -/

theorem isNotFinite_fin (q : ℚ) : isNotFinite (Dbl.fin q) = false := rfl

/-! ## Lemmas on the loop -/

theorem addRows_rows (pca : TPrincipal) (p : Row) (n : Nat) :
    (addRows pca p n).rows = pca.rows ++ List.replicate n p := by
  induction n generalizing pca with
  | zero => simp [addRows]
  | succ n ih => simp [addRows, ih, TPrincipal.AddRow, List.replicate_succ]

theorem recHitLoop_nil (env : Env) (seed : DetId) (loc : Locals)
    (self : Cluster3DPCACalculator) :
    recHitLoop env seed [] loc self = (loc, self, none) := rfl

theorem recHitLoop_cons_notFinite (env : Env) (seed : DetId) (rhf : PFRecHitFraction)
    (rest : List PFRecHitFraction) (loc : Locals) (self : Cluster3DPCACalculator)
    (h : isNotFinite (rh_energy rhf) = true) :
    (recHitLoop env seed (rhf :: rest) loc self).2 =
      (self, some (Exception.PFClusterAlgo rhf.recHitRef.detId)) := by
  simp [recHitLoop, h]

theorem recHitLoop_cons_finite (env : Env) (seed : DetId) (rhf : PFRecHitFraction)
    (rest : List PFRecHitFraction) (loc : Locals) (self : Cluster3DPCACalculator)
    (h : isNotFinite (rh_energy rhf) = false) :
    recHitLoop env seed (rhf :: rest) loc self =
      recHitLoop env seed rest (stepLocals seed rhf loc) (stepSelf env rhf self) := by
  simp only [recHitLoop, h, stepLocals, stepSelf]
  rfl

theorem replicationCount_congr (env : Env) (self1 self2 : Cluster3DPCACalculator)
    (h : self1._logWeightDenom = self2._logWeightDenom) (rhf : PFRecHitFraction) :
    replicationCount env self1 rhf = replicationCount env self2 rhf := by
  simp [replicationCount, h]

theorem replicatedRows_congr (env : Env) (self1 self2 : Cluster3DPCACalculator)
    (h : self1._logWeightDenom = self2._logWeightDenom) (l : List PFRecHitFraction) :
    replicatedRows env self1 l = replicatedRows env self2 l := by
  induction l with
  | nil => rfl
  | cons rhf rest ih =>
    simp [replicatedRows, ih, replicationCount_congr env self1 self2 h]

theorem replicatedRows_append (env : Env) (self : Cluster3DPCACalculator)
    (l1 l2 : List PFRecHitFraction) :
    replicatedRows env self (l1 ++ l2) =
      replicatedRows env self l1 ++ replicatedRows env self l2 := by
  induction l1 with
  | nil => rfl
  | cons rhf rest ih => simp [replicatedRows, ih]

theorem finitePrefix_of_allFinite {l : List PFRecHitFraction} (h : AllFinite l) :
    finitePrefix l = l := by
  induction l with
  | nil => rfl
  | cons rhf rest ih =>
    have h1 : isNotFinite (rh_energy rhf) = false := h rhf (List.mem_cons_self _ _)
    have h2 : AllFinite rest := fun x hx => h x (List.mem_cons_of_mem _ hx)
    have ih2 := ih h2
    unfold finitePrefix at ih2 ⊢
    simp [List.takeWhile, h1, ih2]

theorem firstNotFinite_eq_none {l : List PFRecHitFraction} :
    firstNotFinite l = none ↔ AllFinite l := by
  simp [firstNotFinite, AllFinite, List.find?_eq_none]

/-- The exception the loop ends with: that of the first fraction of non-finite energy. -/
theorem recHitLoop_thrown (env : Env) (seed : DetId) (l : List PFRecHitFraction)
    (loc : Locals) (self : Cluster3DPCACalculator) :
    (recHitLoop env seed l loc self).2.2 =
      (firstNotFinite l).map (fun rhf => Exception.PFClusterAlgo rhf.recHitRef.detId) := by
  induction l generalizing loc self with
  | nil => rfl
  | cons rhf rest ih =>
    cases h : isNotFinite (rh_energy rhf) with
    | true =>
      rw [recHitLoop_cons_notFinite env seed rhf rest loc self h]
      simp [firstNotFinite, List.find?, h]
    | false =>
      rw [recHitLoop_cons_finite env seed rhf rest loc self h, ih]
      simp [firstNotFinite, List.find?, h]

/-- The calculator the loop leaves: only the rows change, by those of the fractions met
before the first one of non-finite energy. -/
theorem recHitLoop_self (env : Env) (seed : DetId) (l : List PFRecHitFraction)
    (loc : Locals) (self : Cluster3DPCACalculator) :
    (recHitLoop env seed l loc self).2.1 =
      { self with
        _pca := ⟨self._pca.rows ++ replicatedRows env self (finitePrefix l)⟩ } := by
  induction l generalizing loc self with
  | nil => simp [recHitLoop, finitePrefix, replicatedRows]
  | cons rhf rest ih =>
    cases h : isNotFinite (rh_energy rhf) with
    | true =>
      rw [recHitLoop_cons_notFinite env seed rhf rest loc self h]
      simp [finitePrefix, List.takeWhile, h, replicatedRows]
    | false =>
      rw [recHitLoop_cons_finite env seed rhf rest loc self h, ih]
      have hc : replicatedRows env (stepSelf env rhf self) (finitePrefix rest) =
          replicatedRows env self (finitePrefix rest) :=
        replicatedRows_congr env (stepSelf env rhf self) self rfl _
      rw [hc]
      simp [finitePrefix, List.takeWhile, h, replicatedRows, stepSelf, addRows_rows]

/-- The locals the loop leaves when every fraction has finite energy. -/
theorem recHitLoop_locals (env : Env) (seed : DetId) (l : List PFRecHitFraction)
    (loc : Locals) (self : Cluster3DPCACalculator) (h : AllFinite l) :
    (recHitLoop env seed l loc self).1 = foldLocals seed l loc := by
  induction l generalizing loc self with
  | nil => rfl
  | cons rhf rest ih =>
    have h1 : isNotFinite (rh_energy rhf) = false := h rhf (List.mem_cons_self _ _)
    have h2 : AllFinite rest := fun x hx => h x (List.mem_cons_of_mem _ hx)
    rw [recHitLoop_cons_finite env seed rhf rest loc self h1, ih _ _ h2]
    rfl

/-! ## The three ways a call ends -/

theorem actual_of_null_seed (env : Env) (self : Cluster3DPCACalculator)
    (cluster : PFCluster) (h : cluster.seed = 0) :
    calculateAndSetPositionActual env self cluster =
      ⟨self, cluster, some (Exception.ClusterWithNoSeed cluster)⟩ := by
  simp [calculateAndSetPositionActual, h]

theorem actual_of_notFinite (env : Env) (self : Cluster3DPCACalculator)
    (cluster : PFCluster) (hseed : cluster.seed ≠ 0) (rhf : PFRecHitFraction)
    (h : firstNotFinite cluster.recHitFractions = some rhf) :
    calculateAndSetPositionActual env self cluster =
      ⟨selfAfter env self cluster, cluster,
        some (Exception.PFClusterAlgo rhf.recHitRef.detId)⟩ := by
  have h1 := recHitLoop_thrown env cluster.seed cluster.recHitFractions initLocals self
  have h2 := recHitLoop_self env cluster.seed cluster.recHitFractions initLocals self
  unfold calculateAndSetPositionActual
  rw [if_neg hseed]
  generalize recHitLoop env cluster.seed cluster.recHitFractions initLocals self = r at h1 h2
  obtain ⟨loc, self1, thr⟩ := r
  simp only [h, Option.map_some'] at h1
  simp only at h2
  subst h1 h2
  rfl

theorem actual_of_allFinite (env : Env) (self : Cluster3DPCACalculator)
    (cluster : PFCluster) (hseed : cluster.seed ≠ 0)
    (h : AllFinite cluster.recHitFractions) :
    calculateAndSetPositionActual env self cluster =
      ⟨selfAfter env self cluster,
        writtenCluster env cluster
          (foldLocals cluster.seed cluster.recHitFractions initLocals)
          (selfAfter env self cluster)._pca.rows,
        none⟩ := by
  have h1 := recHitLoop_thrown env cluster.seed cluster.recHitFractions initLocals self
  have h2 := recHitLoop_self env cluster.seed cluster.recHitFractions initLocals self
  have h3 := recHitLoop_locals env cluster.seed cluster.recHitFractions initLocals self h
  unfold calculateAndSetPositionActual
  rw [if_neg hseed]
  generalize recHitLoop env cluster.seed cluster.recHitFractions initLocals self = r
    at h1 h2 h3
  obtain ⟨loc, self1, thr⟩ := r
  rw [firstNotFinite_eq_none.mpr h] at h1
  simp only [Option.map_none'] at h1
  simp only at h2 h3
  subst h1 h2 h3
  rfl

/-- Either every fraction has finite energy or there is a first one that has not. -/
theorem allFinite_or_first (l : List PFRecHitFraction) :
    AllFinite l ∨ ∃ rhf, firstNotFinite l = some rhf := by
  cases h : firstNotFinite l with
  | none => exact Or.inl (firstNotFinite_eq_none.mp h)
  | some rhf => exact Or.inr ⟨rhf, rfl⟩

/-! ## The locals after the loop -/

theorem stepLocals_cl_energy (seed : DetId) (rhf : PFRecHitFraction) (loc : Locals) :
    (stepLocals seed rhf loc).cl_energy = Dbl.add loc.cl_energy (rh_energy rhf) := by
  simp only [stepLocals]
  split_ifs <;> rfl

theorem stepLocals_cl_time (seed : DetId) (rhf : PFRecHitFraction) (loc : Locals) :
    (stepLocals seed rhf loc).cl_time = loc.cl_time ∧
      (stepLocals seed rhf loc).cl_timeweight = loc.cl_timeweight := by
  simp only [stepLocals]
  split_ifs <;> exact ⟨rfl, rfl⟩

theorem stepLocals_max (seed : DetId) (rhf : PFRecHitFraction) (loc : Locals) :
    (stepLocals seed rhf loc).max_e =
        (if Dbl.gt (rh_energy rhf) loc.max_e then rh_energy rhf else loc.max_e) ∧
      (stepLocals seed rhf loc).max_e_layer =
        (if Dbl.gt (rh_energy rhf) loc.max_e then rhf.recHitRef.layer
          else loc.max_e_layer) := by
  simp only [stepLocals]
  split_ifs <;> exact ⟨rfl, rfl⟩

theorem foldLocals_cons (seed : DetId) (rhf : PFRecHitFraction)
    (rest : List PFRecHitFraction) (loc : Locals) :
    foldLocals seed (rhf :: rest) loc = foldLocals seed rest (stepLocals seed rhf loc) :=
  rfl

theorem foldLocals_cl_time (seed : DetId) (l : List PFRecHitFraction) (loc : Locals) :
    (foldLocals seed l loc).cl_time = loc.cl_time ∧
      (foldLocals seed l loc).cl_timeweight = loc.cl_timeweight := by
  induction l generalizing loc with
  | nil => exact ⟨rfl, rfl⟩
  | cons rhf rest ih =>
    rw [foldLocals_cons]
    exact ⟨(ih _).1.trans (stepLocals_cl_time seed rhf loc).1,
      (ih _).2.trans (stepLocals_cl_time seed rhf loc).2⟩

theorem scenario_allFinite : AllFinite scenarioCluster.recHitFractions := by
  simp [AllFinite, scenarioCluster, freshCluster, mkHit, rh_energy, Dbl.mul, isNotFinite]

/-- C2: a cluster whose seed is null makes the call throw `ClusterWithNoSeed`, whatever
its hit fractions are, and the call leaves the cluster (energy, time, layer, position,
axis and all the rest) and the calculator as they were. -/
theorem null_seed_throws (env : Env) (self : Cluster3DPCACalculator)
    (cluster : PFCluster) (h : cluster.seed = 0) :
    (calculateAndSetPositionActual env self cluster).thrown =
        some (Exception.ClusterWithNoSeed cluster) ∧
      (calculateAndSetPositionActual env self cluster).cluster = cluster ∧
      (calculateAndSetPositionActual env self cluster).self = self := by
  rw [actual_of_null_seed env self cluster h]
  exact ⟨rfl, rfl, rfl⟩

/-- Witness of C2: a cluster without seed whose only contribution has the energy NaN. -/
theorem null_seed_throws_witness :
    noSeedCluster.seed = 0 ∧
      (∃ rhf ∈ noSeedCluster.recHitFractions, isNotFinite (rh_energy rhf) = true) ∧
      (calculateAndSetPositionActual (sampleEnv ⟨Dbl.fin 1, Dbl.fin 0, Dbl.fin 0⟩)
          (sampleCalculator (Dbl.fin 2)) noSeedCluster).thrown =
        some (Exception.ClusterWithNoSeed noSeedCluster) ∧
      (calculateAndSetPositionActual (sampleEnv ⟨Dbl.fin 1, Dbl.fin 0, Dbl.fin 0⟩)
          (sampleCalculator (Dbl.fin 2)) noSeedCluster).cluster = noSeedCluster :=
  ⟨rfl, ⟨_, List.mem_cons_self _ _, rfl⟩,
    (null_seed_throws (sampleEnv ⟨Dbl.fin 1, Dbl.fin 0, Dbl.fin 0⟩)
      (sampleCalculator (Dbl.fin 2)) noSeedCluster rfl).1,
    (null_seed_throws (sampleEnv ⟨Dbl.fin 1, Dbl.fin 0, Dbl.fin 0⟩)
      (sampleCalculator (Dbl.fin 2)) noSeedCluster rfl).2.1⟩

/-- A call that throws leaves the cluster as it was. -/
theorem cluster_unchanged_of_thrown (env : Env) (self : Cluster3DPCACalculator)
    (cluster : PFCluster)
    (h : (calculateAndSetPositionActual env self cluster).thrown ≠ none) :
    (calculateAndSetPositionActual env self cluster).cluster = cluster := by
  by_cases hseed : cluster.seed = 0
  · rw [actual_of_null_seed env self cluster hseed]
  · rcases allFinite_or_first cluster.recHitFractions with hf | ⟨rhf, hr⟩
    · rw [actual_of_allFinite env self cluster hseed hf] at h
      exact absurd rfl h
    · rw [actual_of_notFinite env self cluster hseed rhf hr]

/-- The loop finds no seed hit when no hit has the identifier of the seed. -/
theorem foldLocals_refseed_none (seed : DetId) (l : List PFRecHitFraction) (loc : Locals)
    (hno : ∀ rhf ∈ l, rhf.recHitRef.detId ≠ seed) (h0 : loc.refseed = none) :
    (foldLocals seed l loc).refseed = none := by
  induction l generalizing loc with
  | nil => exact h0
  | cons rhf rest ih =>
    rw [foldLocals_cons]
    refine ih _ (fun x hx => hno x (List.mem_cons_of_mem _ hx)) ?_
    have hne : rhf.recHitRef.detId ≠ seed := hno rhf (List.mem_cons_self _ _)
    simp only [stepLocals, if_neg hne]
    split_ifs <;> exact h0

/-- C3, the counterexample: the seed 7 of `strangerSeedCluster` is the identifier of none
of its hits, and yet the call throws nothing and writes the energy 2 over the 0 that was
there. -/
theorem unmatched_seed_counterexample :
    (∀ rhf ∈ strangerSeedCluster.recHitFractions,
        rhf.recHitRef.detId ≠ strangerSeedCluster.seed) ∧
      (calculateAndSetPositionActual (sampleEnv ⟨Dbl.fin 1, Dbl.fin 0, Dbl.fin 0⟩)
          (sampleCalculator (Dbl.fin 1)) strangerSeedCluster).thrown = none ∧
      (calculateAndSetPositionActual (sampleEnv ⟨Dbl.fin 1, Dbl.fin 0, Dbl.fin 0⟩)
          (sampleCalculator (Dbl.fin 1)) strangerSeedCluster).cluster.energy = Dbl.fin 2 ∧
      strangerSeedCluster.energy = Dbl.fin 0 := by
  have hf : AllFinite strangerSeedCluster.recHitFractions := by
    simp [AllFinite, strangerSeedCluster, freshCluster, mkHit, rh_energy, Dbl.mul,
      isNotFinite]
  refine ⟨?_, ?_, ?_, rfl⟩
  · simp [strangerSeedCluster, freshCluster, mkHit]
  · rw [actual_of_allFinite _ _ _ (by decide) hf]
  · rw [actual_of_allFinite _ _ _ (by decide) hf]
    simp [writtenCluster, foldLocals, stepLocals, strangerSeedCluster, freshCluster, mkHit,
      initLocals, rh_energy, Dbl.mul, Dbl.add, Dbl.gt, Dbl.lt]

/-- C3, amended: for a cluster whose seed is the identifier of none of its hits, the
call throws `ClusterWithNoSeed` exactly when the seed is null; a non-null seed is not
validated: with finite energies the loop ends with `refseed` still null and the call
succeeds; whenever the call throws, the cluster keeps its energy, layer, position and
axis. -/
theorem unmatched_seed (env : Env) (self : Cluster3DPCACalculator) (cluster : PFCluster)
    (hno : ∀ rhf ∈ cluster.recHitFractions, rhf.recHitRef.detId ≠ cluster.seed) :
    ((calculateAndSetPositionActual env self cluster).thrown =
        some (Exception.ClusterWithNoSeed cluster) ↔ cluster.seed = 0) ∧
      (cluster.seed ≠ 0 → AllFinite cluster.recHitFractions →
        (recHitLoop env cluster.seed cluster.recHitFractions initLocals self).1.refseed =
            none ∧
          (calculateAndSetPositionActual env self cluster).thrown = none) ∧
      ((calculateAndSetPositionActual env self cluster).thrown ≠ none →
        (calculateAndSetPositionActual env self cluster).cluster = cluster) := by
  refine ⟨⟨?_, ?_⟩, ?_, cluster_unchanged_of_thrown env self cluster⟩
  · intro h
    by_contra hseed
    rcases allFinite_or_first cluster.recHitFractions with hf | ⟨rhf, hr⟩
    · rw [actual_of_allFinite env self cluster hseed hf] at h
      exact absurd h (by simp)
    · rw [actual_of_notFinite env self cluster hseed rhf hr] at h
      exact absurd h (by simp)
  · intro h
    rw [actual_of_null_seed env self cluster h]
  · intro hseed hf
    rw [actual_of_allFinite env self cluster hseed hf,
      recHitLoop_locals env cluster.seed cluster.recHitFractions initLocals self hf]
    exact ⟨foldLocals_refseed_none _ _ _ hno rfl, rfl⟩

/-- Witness of C3 amended, at the cluster of the counterexample. -/
theorem unmatched_seed_witness :
    (∀ rhf ∈ strangerSeedCluster.recHitFractions,
        rhf.recHitRef.detId ≠ strangerSeedCluster.seed) ∧
      ¬ (calculateAndSetPositionActual (sampleEnv ⟨Dbl.fin 1, Dbl.fin 0, Dbl.fin 0⟩)
          (sampleCalculator (Dbl.fin 1)) strangerSeedCluster).thrown =
        some (Exception.ClusterWithNoSeed strangerSeedCluster) := by
  have hno : ∀ rhf ∈ strangerSeedCluster.recHitFractions,
      rhf.recHitRef.detId ≠ strangerSeedCluster.seed := by
    simp [strangerSeedCluster, freshCluster, mkHit]
  refine ⟨hno, fun h => ?_⟩
  have h7 := (unmatched_seed (sampleEnv ⟨Dbl.fin 1, Dbl.fin 0, Dbl.fin 0⟩)
    (sampleCalculator (Dbl.fin 1)) strangerSeedCluster hno).1.mp h
  exact absurd h7 (by decide)

/-- What `firstNotFinite` finds: the fraction of non-finite energy before which every
fraction has finite energy. -/
theorem firstNotFinite_eq_some {l : List PFRecHitFraction} {rhf : PFRecHitFraction} :
    firstNotFinite l = some rhf ↔
      isNotFinite (rh_energy rhf) = true ∧
        ∃ pre post, l = pre ++ rhf :: post ∧ AllFinite pre := by
  simp [firstNotFinite, List.find?_eq_some, AllFinite]

theorem exists_first_of_exists {l : List PFRecHitFraction}
    (h : ∃ rhf ∈ l, isNotFinite (rh_energy rhf) = true) :
    ∃ rhf, firstNotFinite l = some rhf := by
  rcases allFinite_or_first l with hf | hr
  · obtain ⟨rhf, hmem, hbad⟩ := h
    rw [hf rhf hmem] at hbad
    exact absurd hbad (by decide)
  · exact hr

/-- C4: when the seed is not null and some hit fraction has a non-finite energy, the
call throws the `PFClusterAlgo` exception that names the hit of the first such fraction
in the order of the sequence, and the cluster is left as it was: no energy and no other
field is written. -/
theorem notFinite_energy_throws (env : Env) (self : Cluster3DPCACalculator)
    (cluster : PFCluster) (hseed : cluster.seed ≠ 0)
    (hbad : ∃ rhf ∈ cluster.recHitFractions, isNotFinite (rh_energy rhf) = true) :
    ∃ pre rhf post,
      cluster.recHitFractions = pre ++ rhf :: post ∧ AllFinite pre ∧
        isNotFinite (rh_energy rhf) = true ∧
        firstNotFinite cluster.recHitFractions = some rhf ∧
        (calculateAndSetPositionActual env self cluster).thrown =
          some (Exception.PFClusterAlgo rhf.recHitRef.detId) ∧
        (calculateAndSetPositionActual env self cluster).cluster = cluster := by
  obtain ⟨rhf, hr⟩ := exists_first_of_exists hbad
  obtain ⟨hb, pre, post, hsplit, hpre⟩ := firstNotFinite_eq_some.mp hr
  refine ⟨pre, rhf, post, hsplit, hpre, hb, hr, ?_, ?_⟩
  · rw [actual_of_notFinite env self cluster hseed rhf hr]
  · rw [actual_of_notFinite env self cluster hseed rhf hr]

/-- Witness of C4: in `corruptCluster` the fraction of the hit 9 is the first of
non-finite energy, and the exception names the hit 9. -/
theorem notFinite_energy_throws_witness :
    corruptCluster.seed ≠ 0 ∧
      (∃ rhf ∈ corruptCluster.recHitFractions, isNotFinite (rh_energy rhf) = true) ∧
      (calculateAndSetPositionActual (sampleEnv ⟨Dbl.fin 1, Dbl.fin 0, Dbl.fin 0⟩)
          (sampleCalculator (Dbl.fin 2)) corruptCluster).thrown =
        some (Exception.PFClusterAlgo 9) ∧
      (calculateAndSetPositionActual (sampleEnv ⟨Dbl.fin 1, Dbl.fin 0, Dbl.fin 0⟩)
          (sampleCalculator (Dbl.fin 2)) corruptCluster).cluster = corruptCluster := by
  have hbad : ∃ rhf ∈ corruptCluster.recHitFractions,
      isNotFinite (rh_energy rhf) = true :=
    ⟨_, List.mem_cons_of_mem _ (List.mem_cons_self _ _), rfl⟩
  obtain ⟨pre, rhf, post, _, _, _, hfirst, hth, hcl⟩ :=
    notFinite_energy_throws (sampleEnv ⟨Dbl.fin 1, Dbl.fin 0, Dbl.fin 0⟩)
      (sampleCalculator (Dbl.fin 2)) corruptCluster (by decide) hbad
  have h9 : firstNotFinite corruptCluster.recHitFractions =
      some ⟨{ detId := 9, energy := Dbl.pinf,
              position := ⟨Dbl.fin 1, Dbl.fin 2, Dbl.fin 3⟩,
              layer := PFLayer.Layer.det 1 }, Dbl.fin 1⟩ := by
    norm_num [firstNotFinite, corruptCluster, freshCluster, mkHit, rh_energy, Dbl.mul,
      isNotFinite, List.find?]
  rw [h9] at hfirst
  cases hfirst
  exact ⟨by decide, hbad, hth, hcl⟩

/-- The conversion of a finite value in `[0, 2^32)` is its floor. -/
theorem toUnsigned_of_nonneg (outOfRange : Dbl → Nat) (q : ℚ) (h0 : 0 ≤ q)
    (h1 : q < 4294967296) : (toUnsigned outOfRange (Dbl.fin q) : ℤ) = ⌊q⌋ := by
  have hc : -1 < q ∧ q < 4294967296 := ⟨by linarith, h1⟩
  have hn : (0 : ℤ) ≤ q.num := Rat.num_nonneg.mpr h0
  have hd : (0 : ℤ) ≤ (q.den : ℤ) := Int.natCast_nonneg _
  simp only [toUnsigned, hc, and_self, if_true]
  rw [Int.tdiv_eq_ediv hn hd, Rat.floor_def, Int.toNat_of_nonneg (Int.ediv_nonneg hn hd)]

theorem div_fin_fin (a b : ℚ) (hb : b ≠ 0) :
    Dbl.div (Dbl.fin a) (Dbl.fin b) = Dbl.fin (a / b) := by
  simp [Dbl.div, hb]

/-- The rows held when `calculateAndSetPosition` returns: those of the fractions met in
the loop, and none if the seed is null. -/
theorem calculateAndSetPosition_rows (env : Env) (self : Cluster3DPCACalculator)
    (cluster : PFCluster) :
    (calculateAndSetPosition env self cluster).self._pca.rows =
      if cluster.seed = 0 then []
      else replicatedRows env self (finitePrefix cluster.recHitFractions) := by
  unfold calculateAndSetPosition
  by_cases hseed : cluster.seed = 0
  · rw [actual_of_null_seed env _ cluster hseed, if_pos hseed]
    rfl
  · rw [if_neg hseed]
    have hc : ∀ s2 : Cluster3DPCACalculator, s2._logWeightDenom = self._logWeightDenom →
        replicatedRows env s2 (finitePrefix cluster.recHitFractions) =
          replicatedRows env self (finitePrefix cluster.recHitFractions) :=
      fun s2 h2 => replicatedRows_congr env s2 self h2 _
    rcases allFinite_or_first cluster.recHitFractions with hf | ⟨rhf, hr⟩
    · rw [actual_of_allFinite env _ cluster hseed hf]
      simp only [selfAfter, TPrincipal.Clear, List.nil_append]
      exact hc _ rfl
    · rw [actual_of_notFinite env _ cluster hseed rhf hr]
      simp only [selfAfter, TPrincipal.Clear, List.nil_append]
      exact hc _ rfl

theorem mul_neg_one (x : Dbl) : Dbl.mul x (Dbl.fin (-1)) = Dbl.neg x := by
  cases x <;> norm_num [Dbl.mul, Dbl.neg]

theorem signAxis_of_lt (axis : XYZVector) (b : XYZPoint)
    (h : Dbl.lt (Dbl.mul axis.z b.z) (Dbl.fin 0) = true) :
    signAxis axis b = ⟨Dbl.neg axis.x, Dbl.neg axis.y, Dbl.neg axis.z⟩ := by
  simp [signAxis, h, XYZVector.scale, mul_neg_one]

theorem signAxis_of_not_lt (axis : XYZVector) (b : XYZPoint)
    (h : Dbl.lt (Dbl.mul axis.z b.z) (Dbl.fin 0) = false) :
    signAxis axis b = axis := by
  simp [signAxis, h]

theorem mul_neg_left (x y : Dbl) : Dbl.mul (Dbl.neg x) y = Dbl.neg (Dbl.mul x y) := by
  cases x <;> cases y <;> simp [Dbl.mul, Dbl.neg] <;> split_ifs <;>
    first
    | rfl
    | (exfalso; linarith)
    | (exfalso; push_neg at *; exact ‹_ ≠ _› (le_antisymm ‹_› ‹_›))

/-- A product that is not NaN is below zero or at least zero. -/
theorem ge_zero_of_not_lt (p : Dbl) (hn : p ≠ Dbl.nan)
    (h : Dbl.lt p (Dbl.fin 0) = false) : Dbl.ge p (Dbl.fin 0) = true := by
  cases p with
  | fin q => simpa [Dbl.lt, Dbl.ge] using h
  | pinf => rfl
  | ninf => simp [Dbl.lt] at h
  | nan => exact absurd rfl hn

theorem ge_zero_neg_of_lt (p : Dbl) (h : Dbl.lt p (Dbl.fin 0) = true) :
    Dbl.ge (Dbl.neg p) (Dbl.fin 0) = true := by
  cases p with
  | fin q =>
    simp only [Dbl.lt, decide_eq_true_eq] at h
    simp only [Dbl.neg, Dbl.ge, decide_eq_true_eq]
    linarith
  | pinf => simp [Dbl.lt] at h
  | ninf => rfl
  | nan => simp [Dbl.lt] at h

theorem neg_eq_nan (p : Dbl) : Dbl.neg p = Dbl.nan ↔ p = Dbl.nan := by
  cases p <;> simp [Dbl.neg]

/-- After the sign convention the product of the two z components is at least zero
exactly when the product of the raw ones is not NaN. -/
theorem signAxis_product (axis : XYZVector) (b : XYZPoint) :
    Dbl.ge (Dbl.mul (signAxis axis b).z b.z) (Dbl.fin 0) = true ↔
      Dbl.mul axis.z b.z ≠ Dbl.nan := by
  cases hlt : Dbl.lt (Dbl.mul axis.z b.z) (Dbl.fin 0) with
  | true =>
    rw [signAxis_of_lt axis b hlt]
    simp only [mul_neg_left]
    refine ⟨fun _ hn => ?_, fun _ => ge_zero_neg_of_lt _ hlt⟩
    rw [hn] at hlt
    simp [Dbl.lt] at hlt
  | false =>
    rw [signAxis_of_not_lt axis b hlt]
    refine ⟨fun hge hn => ?_, fun hn => ge_zero_of_not_lt _ hn hlt⟩
    rw [hn] at hge
    simp [Dbl.ge] at hge

/-- A call that throws nothing had a seed and only finite energies. -/
theorem seed_and_finite_of_ok (env : Env) (self : Cluster3DPCACalculator)
    (cluster : PFCluster)
    (hok : (calculateAndSetPositionActual env self cluster).thrown = none) :
    cluster.seed ≠ 0 ∧ AllFinite cluster.recHitFractions := by
  by_cases hseed : cluster.seed = 0
  · rw [actual_of_null_seed env self cluster hseed] at hok
    exact absurd hok (by simp)
  · rcases allFinite_or_first cluster.recHitFractions with hf | ⟨rhf, hr⟩
    · exact ⟨hseed, hf⟩
    · rw [actual_of_notFinite env self cluster hseed rhf hr] at hok
      exact absurd hok (by simp)

/-! ## The mean of a row repeated -/

theorem foldl_add_replicate (k : Nat) (a x : ℚ) :
    (List.replicate k (Dbl.fin x)).foldl Dbl.add (Dbl.fin a) = Dbl.fin (a + k * x) := by
  induction k generalizing a with
  | zero => simp
  | succ n ih =>
    simp only [List.replicate_succ, List.foldl_cons, Dbl.add, ih]
    congr 1
    push_cast
    ring

/-- The arithmetic mean of one row repeated `k >= 1` times is that row, entry by entry,
where the entry is finite. -/
theorem arithmeticMean_replicate (k : Nat) (hk : 1 ≤ k) (r : Row) (i : Nat) (x : ℚ)
    (hx : r.get i = Dbl.fin x) :
    arithmeticMean (List.replicate k r) i = Dbl.fin x := by
  have hk0 : (k : ℚ) ≠ 0 := by
    have : 0 < k := hk
    exact_mod_cast (Nat.pos_iff_ne_zero.mp this)
  unfold arithmeticMean sumEntries
  rw [List.map_replicate, hx, foldl_add_replicate, List.length_replicate,
    div_fin_fin _ _ hk0]
  congr 1
  field_simp

/-- The rows after a call on a cluster with a single hit fraction of finite energy,
from an empty `TPrincipal`. -/
theorem rows_of_single (env : Env) (self : Cluster3DPCACalculator) (cluster : PFCluster)
    (rhf : PFRecHitFraction) (hseed : cluster.seed ≠ 0)
    (hl : cluster.recHitFractions = [rhf]) (hfin : isNotFinite (rh_energy rhf) = false)
    (hrows : self._pca.rows = []) :
    (calculateAndSetPositionActual env self cluster).thrown = none ∧
      (calculateAndSetPositionActual env self cluster).self._pca.rows =
        List.replicate (replicationCount env self rhf) (pcavars rhf.recHitRef) := by
  have hf : AllFinite cluster.recHitFractions := by
    rw [hl]
    intro x hx
    rw [List.mem_singleton.mp hx]
    exact hfin
  rw [actual_of_allFinite env self cluster hseed hf]
  refine ⟨rfl, ?_⟩
  simp only [selfAfter, hrows, List.nil_append, finitePrefix_of_allFinite hf]
  rw [hl]
  simp [replicatedRows]

/-- The hit of `singleHitCluster` is entered twice when the denominator is 1. -/
theorem singleHit_count (axis : Row) :
    replicationCount (sampleEnv axis) (sampleCalculator (Dbl.fin 1))
      ⟨mkHit 1 2 1 0 0 1, Dbl.fin 1⟩ = 2 := by
  have he : rh_energy ⟨mkHit 1 2 1 0 0 1, Dbl.fin 1⟩ = Dbl.fin 2 := by
    norm_num [rh_energy, mkHit, Dbl.mul]
  have h := toUnsigned_of_nonneg (sampleEnv axis).castOutOfRange (2 / 1)
    (by norm_num) (by norm_num)
  unfold replicationCount
  rw [he]
  simp only [sampleCalculator]
  rw [div_fin_fin _ _ one_ne_zero]
  have h2 : ⌊(2 / 1 : ℚ)⌋ = 2 := by norm_num
  rw [h2] at h
  exact_mod_cast h

/-- The rows and the mean that a call on `singleHitCluster` ends with. -/
theorem singleHit_rows (axis : Row) :
    (calculateAndSetPositionActual (sampleEnv axis) (sampleCalculator (Dbl.fin 1))
        singleHitCluster).thrown = none ∧
      (calculateAndSetPositionActual (sampleEnv axis) (sampleCalculator (Dbl.fin 1))
        singleHitCluster).self._pca.rows =
        [⟨Dbl.fin 1, Dbl.fin 1, Dbl.fin 1⟩, ⟨Dbl.fin 1, Dbl.fin 1, Dbl.fin 1⟩] ∧
      ∀ i, arithmeticMean
        (calculateAndSetPositionActual (sampleEnv axis) (sampleCalculator (Dbl.fin 1))
          singleHitCluster).self._pca.rows i = Dbl.fin 1 := by
  have h := rows_of_single (sampleEnv axis) (sampleCalculator (Dbl.fin 1)) singleHitCluster
    ⟨mkHit 1 2 1 0 0 1, Dbl.fin 1⟩ (by decide) rfl
    (by norm_num [rh_energy, mkHit, Dbl.mul, isNotFinite]) rfl
  rw [singleHit_count] at h
  refine ⟨h.1, h.2, ?_⟩
  intro i
  rw [h.2]
  refine arithmeticMean_replicate 2 (by norm_num) _ i 1 ?_
  unfold Row.get pcavars mkHit
  split <;> rfl

/-- C8, the counterexample: on `singleHitCluster` the call succeeds; the first
eigenvector handed back has the z component NaN, the sign convention leaves it, and
`axis.z * position.z >= 0` is false for the axis and position written. -/
theorem axis_sign_counterexample :
    (calculateAndSetPositionActual (sampleEnv ⟨Dbl.fin 1, Dbl.fin 0, Dbl.nan⟩)
        (sampleCalculator (Dbl.fin 1)) singleHitCluster).thrown = none ∧
      (calculateAndSetPositionActual (sampleEnv ⟨Dbl.fin 1, Dbl.fin 0, Dbl.nan⟩)
        (sampleCalculator (Dbl.fin 1)) singleHitCluster).cluster.axis.z = Dbl.nan ∧
      Dbl.ge
        (Dbl.mul
          (calculateAndSetPositionActual (sampleEnv ⟨Dbl.fin 1, Dbl.fin 0, Dbl.nan⟩)
            (sampleCalculator (Dbl.fin 1)) singleHitCluster).cluster.axis.z
          (calculateAndSetPositionActual (sampleEnv ⟨Dbl.fin 1, Dbl.fin 0, Dbl.nan⟩)
            (sampleCalculator (Dbl.fin 1)) singleHitCluster).cluster.position.z)
        (Dbl.fin 0) = false := by
  have hf : AllFinite singleHitCluster.recHitFractions := by
    simp [AllFinite, singleHitCluster, freshCluster, mkHit, rh_energy, Dbl.mul,
      isNotFinite]
  have hz : (calculateAndSetPositionActual (sampleEnv ⟨Dbl.fin 1, Dbl.fin 0, Dbl.nan⟩)
      (sampleCalculator (Dbl.fin 1)) singleHitCluster).cluster.axis.z = Dbl.nan := by
    rw [actual_of_allFinite _ _ _ (by decide) hf]
    simp [writtenCluster, signAxis, sampleEnv, Row.get, Dbl.mul, Dbl.lt]
  refine ⟨?_, hz, ?_⟩
  · rw [actual_of_allFinite _ _ _ (by decide) hf]
  · rw [hz]
    simp [Dbl.mul, Dbl.ge]

/-- C8, amended: after a successful call, `axis.z * position.z >= 0` holds for the axis
and position written exactly when the product of the z components that
`MakePrincipals` handed back (first eigenvector and mean) is not NaN; it holds in
particular whenever both are finite. -/
theorem axis_sign (env : Env) (self : Cluster3DPCACalculator) (cluster : PFCluster)
    (hok : (calculateAndSetPositionActual env self cluster).thrown = none) :
    (Dbl.ge
        (Dbl.mul (calculateAndSetPositionActual env self cluster).cluster.axis.z
          (calculateAndSetPositionActual env self cluster).cluster.position.z)
        (Dbl.fin 0) = true ↔
      Dbl.mul
        (env.GetEigenVectors
          (calculateAndSetPositionActual env self cluster).self._pca.rows 2 0)
        (env.GetMeanValues
          (calculateAndSetPositionActual env self cluster).self._pca.rows 2) ≠ Dbl.nan) ∧
      (∀ a b : ℚ,
        env.GetEigenVectors
          (calculateAndSetPositionActual env self cluster).self._pca.rows 2 0 = Dbl.fin a →
        env.GetMeanValues
          (calculateAndSetPositionActual env self cluster).self._pca.rows 2 = Dbl.fin b →
        Dbl.ge
          (Dbl.mul (calculateAndSetPositionActual env self cluster).cluster.axis.z
            (calculateAndSetPositionActual env self cluster).cluster.position.z)
          (Dbl.fin 0) = true) := by
  obtain ⟨hseed, hf⟩ := seed_and_finite_of_ok env self cluster hok
  rw [actual_of_allFinite env self cluster hseed hf]
  simp only [writtenCluster]
  refine ⟨signAxis_product _ _, ?_⟩
  intro a b ha hb
  refine (signAxis_product _ _).mpr ?_
  simp only [ha, hb, Dbl.mul]
  exact fun h => Dbl.noConfusion h

/-- Witness of C8 amended: `singleHitCluster` with the raw axis (0,0,-1): the mean has
z = 1, the axis is turned round, and the product is at least zero. -/
theorem axis_sign_witness :
    (calculateAndSetPositionActual (sampleEnv ⟨Dbl.fin 0, Dbl.fin 0, Dbl.fin (-1)⟩)
        (sampleCalculator (Dbl.fin 1)) singleHitCluster).thrown = none ∧
      Dbl.ge
        (Dbl.mul
          (calculateAndSetPositionActual (sampleEnv ⟨Dbl.fin 0, Dbl.fin 0, Dbl.fin (-1)⟩)
            (sampleCalculator (Dbl.fin 1)) singleHitCluster).cluster.axis.z
          (calculateAndSetPositionActual (sampleEnv ⟨Dbl.fin 0, Dbl.fin 0, Dbl.fin (-1)⟩)
            (sampleCalculator (Dbl.fin 1)) singleHitCluster).cluster.position.z)
        (Dbl.fin 0) = true :=
  ⟨(singleHit_rows _).1,
    (axis_sign _ _ _ (singleHit_rows _).1).2 (-1) 1 rfl ((singleHit_rows _).2.2 2)⟩

/-- The position a successful call writes is the mean handed back for the rows held. -/
theorem position_of_ok (env : Env) (self : Cluster3DPCACalculator) (cluster : PFCluster)
    (hok : (calculateAndSetPositionActual env self cluster).thrown = none) :
    (calculateAndSetPositionActual env self cluster).cluster.position =
      ⟨env.GetMeanValues (calculateAndSetPositionActual env self cluster).self._pca.rows 0,
        env.GetMeanValues (calculateAndSetPositionActual env self cluster).self._pca.rows 1,
        env.GetMeanValues
          (calculateAndSetPositionActual env self cluster).self._pca.rows 2⟩ := by
  obtain ⟨hseed, hf⟩ := seed_and_finite_of_ok env self cluster hok
  rw [actual_of_allFinite env self cluster hseed hf]
  rfl

/-- With the arithmetic mean for `GetMeanValues`, a cluster with a single hit fraction of
finite energy that is entered at least once gets a position whose three coordinates are
all the x coordinate of the hit. -/
theorem position_of_single_hit (env : Env) (self : Cluster3DPCACalculator)
    (cluster : PFCluster) (rhf : PFRecHitFraction) (x : ℚ)
    (hmean : env.GetMeanValues = arithmeticMean) (hseed : cluster.seed ≠ 0)
    (hl : cluster.recHitFractions = [rhf]) (hfin : isNotFinite (rh_energy rhf) = false)
    (hx : rhf.recHitRef.position.x = Dbl.fin x)
    (hk : 1 ≤ replicationCount env self rhf) :
    (calculateAndSetPosition env self cluster).thrown = none ∧
      (calculateAndSetPosition env self cluster).cluster.position =
        ⟨Dbl.fin x, Dbl.fin x, Dbl.fin x⟩ := by
  unfold calculateAndSetPosition
  have hr := rows_of_single env { self with _pca := self._pca.Clear } cluster rhf hseed hl
    hfin rfl
  have hc : replicationCount env { self with _pca := self._pca.Clear } rhf =
      replicationCount env self rhf := replicationCount_congr env _ self rfl rhf
  rw [hc] at hr
  refine ⟨hr.1, ?_⟩
  rw [position_of_ok env _ cluster hr.1, hr.2, hmean]
  have hm : ∀ i, arithmeticMean
      (List.replicate (replicationCount env self rhf) (pcavars rhf.recHitRef)) i =
        Dbl.fin x := by
    intro i
    refine arithmeticMean_replicate _ hk _ i x ?_
    unfold Row.get pcavars
    split <;> exact hx
  rw [hm 0, hm 1, hm 2]

/-- C10, the code at the failing input: `singleHitCluster` has exactly one hit
contribution, at (1,0,0), with `floor (2 / 1) = 2 >= 1` rows; the rows handed to the
`TPrincipal` are (1,1,1) twice, and the position written is (1,1,1), which is not the
position of the hit. -/
theorem single_hit_position_is_not_hit_position :
    singleHitCluster.recHitFractions = [⟨mkHit 1 2 1 0 0 1, Dbl.fin 1⟩] ∧
      ⌊(2 : ℚ) / 1⌋ = 2 ∧
      (mkHit 1 2 1 0 0 1).position = ⟨Dbl.fin 1, Dbl.fin 0, Dbl.fin 0⟩ ∧
      (calculateAndSetPosition (sampleEnv ⟨Dbl.fin 1, Dbl.fin 0, Dbl.fin 0⟩)
        (sampleCalculator (Dbl.fin 1)) singleHitCluster).self._pca.rows =
        [⟨Dbl.fin 1, Dbl.fin 1, Dbl.fin 1⟩, ⟨Dbl.fin 1, Dbl.fin 1, Dbl.fin 1⟩] ∧
      (calculateAndSetPosition (sampleEnv ⟨Dbl.fin 1, Dbl.fin 0, Dbl.fin 0⟩)
        (sampleCalculator (Dbl.fin 1)) singleHitCluster).thrown = none ∧
      (calculateAndSetPosition (sampleEnv ⟨Dbl.fin 1, Dbl.fin 0, Dbl.fin 0⟩)
        (sampleCalculator (Dbl.fin 1)) singleHitCluster).cluster.position =
        ⟨Dbl.fin 1, Dbl.fin 1, Dbl.fin 1⟩ ∧
      (calculateAndSetPosition (sampleEnv ⟨Dbl.fin 1, Dbl.fin 0, Dbl.fin 0⟩)
        (sampleCalculator (Dbl.fin 1)) singleHitCluster).cluster.position ≠
        (mkHit 1 2 1 0 0 1).position := by
  have h := position_of_single_hit (sampleEnv ⟨Dbl.fin 1, Dbl.fin 0, Dbl.fin 0⟩)
    (sampleCalculator (Dbl.fin 1)) singleHitCluster ⟨mkHit 1 2 1 0 0 1, Dbl.fin 1⟩ 1 rfl
    (by decide) rfl (by norm_num [rh_energy, mkHit, Dbl.mul, isNotFinite]) rfl
    (by rw [singleHit_count]; norm_num)
  refine ⟨rfl, by norm_num, rfl,
    (singleHit_rows ⟨Dbl.fin 1, Dbl.fin 0, Dbl.fin 0⟩).2.1, h.1, h.2, ?_⟩
  rw [h.2]
  intro hne
  have hy := congrArg XYZPoint.y hne
  simp [mkHit] at hy

/-! ## The scenario of the specification -/

/-- In the scenario with denominator 2 the hit H1 is entered 5 times and H2 once. -/
theorem scenario_counts (axis : Row) :
    replicationCount (sampleEnv axis) (sampleCalculator (Dbl.fin 2))
        ⟨mkHit 1 10 1 0 0 1, Dbl.fin 1⟩ = 5 ∧
      replicationCount (sampleEnv axis) (sampleCalculator (Dbl.fin 2))
        ⟨mkHit 2 4 5 0 0 2, Dbl.fin (1 / 2)⟩ = 1 := by
  have he1 : rh_energy ⟨mkHit 1 10 1 0 0 1, Dbl.fin 1⟩ = Dbl.fin 10 := by
    norm_num [rh_energy, mkHit, Dbl.mul]
  have he2 : rh_energy ⟨mkHit 2 4 5 0 0 2, Dbl.fin (1 / 2)⟩ = Dbl.fin 2 := by
    norm_num [rh_energy, mkHit, Dbl.mul]
  have h1 := toUnsigned_of_nonneg (sampleEnv axis).castOutOfRange (10 / 2)
    (by norm_num) (by norm_num)
  have h2 := toUnsigned_of_nonneg (sampleEnv axis).castOutOfRange (2 / 2)
    (by norm_num) (by norm_num)
  have f1 : ⌊(10 / 2 : ℚ)⌋ = 5 := by norm_num
  have f2 : ⌊(2 / 2 : ℚ)⌋ = 1 := by norm_num
  rw [f1] at h1
  rw [f2] at h2
  unfold replicationCount
  rw [he1, he2]
  simp only [sampleCalculator]
  rw [div_fin_fin _ _ two_ne_zero, div_fin_fin _ _ two_ne_zero]
  exact ⟨by exact_mod_cast h1, by exact_mod_cast h2⟩

/-- The rows held at `MakePrincipals` in the scenario: (1,1,1) five times, (5,5,5) once. -/
theorem scenario_rows (axis : Row) :
    (calculateAndSetPosition (sampleEnv axis) (sampleCalculator (Dbl.fin 2))
        scenarioCluster).self._pca.rows =
      List.replicate 5 ⟨Dbl.fin 1, Dbl.fin 1, Dbl.fin 1⟩ ++
        [⟨Dbl.fin 5, Dbl.fin 5, Dbl.fin 5⟩] := by
  rw [calculateAndSetPosition_rows, if_neg (by decide),
    finitePrefix_of_allFinite scenario_allFinite]
  simp only [scenarioCluster, freshCluster, replicatedRows, (scenario_counts axis).1,
    (scenario_counts axis).2]
  rfl

/-- C11, the code at the failing input: in the scenario of the specification the counts
are 5 and 1, the energy is 12 and the layer is that of H1, as expected; the rows are
(1,1,1) five times and (5,5,5) once, and the position written is (5/3, 5/3, 5/3), which
is not the count-weighted mean (10/6, 0, 0) of the positions (1,0,0) and (5,0,0). -/
theorem scenario_position_is_not_weighted_mean :
    (calculateAndSetPosition (sampleEnv ⟨Dbl.fin 1, Dbl.fin 0, Dbl.fin 0⟩)
        (sampleCalculator (Dbl.fin 2)) scenarioCluster).thrown = none ∧
      (calculateAndSetPosition (sampleEnv ⟨Dbl.fin 1, Dbl.fin 0, Dbl.fin 0⟩)
        (sampleCalculator (Dbl.fin 2)) scenarioCluster).self._pca.rows.length = 6 ∧
      (calculateAndSetPosition (sampleEnv ⟨Dbl.fin 1, Dbl.fin 0, Dbl.fin 0⟩)
        (sampleCalculator (Dbl.fin 2)) scenarioCluster).cluster.energy = Dbl.fin 12 ∧
      (calculateAndSetPosition (sampleEnv ⟨Dbl.fin 1, Dbl.fin 0, Dbl.fin 0⟩)
        (sampleCalculator (Dbl.fin 2)) scenarioCluster).cluster.layer =
        PFLayer.Layer.det 1 ∧
      (calculateAndSetPosition (sampleEnv ⟨Dbl.fin 1, Dbl.fin 0, Dbl.fin 0⟩)
        (sampleCalculator (Dbl.fin 2)) scenarioCluster).cluster.position =
        ⟨Dbl.fin (5 / 3), Dbl.fin (5 / 3), Dbl.fin (5 / 3)⟩ ∧
      ((5 * 1 + 1 * 5) / 6 : ℚ) = 10 / 6 ∧
      (calculateAndSetPosition (sampleEnv ⟨Dbl.fin 1, Dbl.fin 0, Dbl.fin 0⟩)
        (sampleCalculator (Dbl.fin 2)) scenarioCluster).cluster.position ≠
        ⟨Dbl.fin (10 / 6), Dbl.fin 0, Dbl.fin 0⟩ := by
  have hrows := scenario_rows ⟨Dbl.fin 1, Dbl.fin 0, Dbl.fin 0⟩
  have hok : (calculateAndSetPosition (sampleEnv ⟨Dbl.fin 1, Dbl.fin 0, Dbl.fin 0⟩)
      (sampleCalculator (Dbl.fin 2)) scenarioCluster).thrown = none := by
    unfold calculateAndSetPosition
    rw [actual_of_allFinite _ _ _ (by decide) scenario_allFinite]
  have hpos : (calculateAndSetPosition (sampleEnv ⟨Dbl.fin 1, Dbl.fin 0, Dbl.fin 0⟩)
      (sampleCalculator (Dbl.fin 2)) scenarioCluster).cluster.position =
        ⟨Dbl.fin (5 / 3), Dbl.fin (5 / 3), Dbl.fin (5 / 3)⟩ := by
    have hp := position_of_ok _ _ _ hok
    have hr : (calculateAndSetPositionActual (sampleEnv ⟨Dbl.fin 1, Dbl.fin 0, Dbl.fin 0⟩)
        { sampleCalculator (Dbl.fin 2) with
          _pca := (sampleCalculator (Dbl.fin 2))._pca.Clear } scenarioCluster).self._pca.rows =
        List.replicate 5 ⟨Dbl.fin 1, Dbl.fin 1, Dbl.fin 1⟩ ++
          [⟨Dbl.fin 5, Dbl.fin 5, Dbl.fin 5⟩] := hrows
    unfold calculateAndSetPosition
    rw [hp, hr]
    norm_num [sampleEnv, arithmeticMean, sumEntries, Row.get, Dbl.add, Dbl.div,
      List.replicate]
  refine ⟨hok, by rw [hrows]; rfl, ?_, ?_, hpos, by norm_num, ?_⟩
  · unfold calculateAndSetPosition
    rw [actual_of_allFinite _ _ _ (by decide) scenario_allFinite]
    norm_num [writtenCluster, foldLocals, stepLocals, scenarioCluster, freshCluster, mkHit,
      initLocals, rh_energy, Dbl.mul, Dbl.add, Dbl.gt, Dbl.lt]
  · unfold calculateAndSetPosition
    rw [actual_of_allFinite _ _ _ (by decide) scenario_allFinite]
    norm_num [writtenCluster, foldLocals, stepLocals, scenarioCluster, freshCluster, mkHit,
      initLocals, rh_energy, Dbl.mul, Dbl.add, Dbl.gt, Dbl.lt]
  · rw [hpos]
    intro hne
    have hy := congrArg XYZPoint.y hne
    norm_num at hy

/-! ## What a call depends on -/

/-- A call changes the calculator in its rows only. -/
theorem actual_self_config (env : Env) (self : Cluster3DPCACalculator)
    (cluster : PFCluster) :
    (calculateAndSetPositionActual env self cluster).self =
      { self with _pca := (calculateAndSetPositionActual env self cluster).self._pca } := by
  by_cases hseed : cluster.seed = 0
  · rw [actual_of_null_seed env self cluster hseed]
  · rcases allFinite_or_first cluster.recHitFractions with hf | ⟨rhf, hr⟩
    · rw [actual_of_allFinite env self cluster hseed hf]
      rfl
    · rw [actual_of_notFinite env self cluster hseed rhf hr]
      rfl

/-- Of the calculator, a call reads the denominator and the rows held, and nothing else. -/
theorem actual_indep (env : Env) (s1 s2 : Cluster3DPCACalculator) (cluster : PFCluster)
    (hd : s1._logWeightDenom = s2._logWeightDenom) (hp : s1._pca = s2._pca) :
    (calculateAndSetPositionActual env s1 cluster).thrown =
        (calculateAndSetPositionActual env s2 cluster).thrown ∧
      (calculateAndSetPositionActual env s1 cluster).cluster =
        (calculateAndSetPositionActual env s2 cluster).cluster ∧
      (calculateAndSetPositionActual env s1 cluster).self._pca =
        (calculateAndSetPositionActual env s2 cluster).self._pca := by
  have hrows : (selfAfter env s1 cluster)._pca = (selfAfter env s2 cluster)._pca := by
    simp only [selfAfter, hp,
      replicatedRows_congr env s1 s2 hd (finitePrefix cluster.recHitFractions)]
  by_cases hseed : cluster.seed = 0
  · rw [actual_of_null_seed env s1 cluster hseed, actual_of_null_seed env s2 cluster hseed]
    exact ⟨rfl, rfl, hp⟩
  · rcases allFinite_or_first cluster.recHitFractions with hf | ⟨rhf, hr⟩
    · rw [actual_of_allFinite env s1 cluster hseed hf,
        actual_of_allFinite env s2 cluster hseed hf]
      refine ⟨rfl, ?_, hrows⟩
      simp only [hrows]
    · rw [actual_of_notFinite env s1 cluster hseed rhf hr,
        actual_of_notFinite env s2 cluster hseed rhf hr]
      exact ⟨rfl, rfl, hrows⟩

/-- Of the calculator, `calculateAndSetPosition` reads the denominator only. -/
theorem position_indep (env : Env) (s1 s2 : Cluster3DPCACalculator) (cluster : PFCluster)
    (hd : s1._logWeightDenom = s2._logWeightDenom) :
    (calculateAndSetPosition env s1 cluster).thrown =
        (calculateAndSetPosition env s2 cluster).thrown ∧
      (calculateAndSetPosition env s1 cluster).cluster =
        (calculateAndSetPosition env s2 cluster).cluster ∧
      (calculateAndSetPosition env s1 cluster).self._pca =
        (calculateAndSetPosition env s2 cluster).self._pca :=
  actual_indep env _ _ cluster hd rfl

theorem position_self_denom (env : Env) (self : Cluster3DPCACalculator)
    (cluster : PFCluster) :
    (calculateAndSetPosition env self cluster).self._logWeightDenom =
      self._logWeightDenom := by
  unfold calculateAndSetPosition
  rw [actual_self_config]

/-- The cluster a call leaves depends on the cluster it is given through the seed and
the hit fractions only, when the call throws nothing. -/
theorem actual_cluster_of_inputs (env : Env) (self : Cluster3DPCACalculator)
    (c1 c2 : PFCluster) (hs : c1.seed = c2.seed)
    (hl : c1.recHitFractions = c2.recHitFractions)
    (hok : (calculateAndSetPositionActual env self c1).thrown = none) :
    (calculateAndSetPositionActual env self c2).thrown = none ∧
      (calculateAndSetPositionActual env self c2).cluster =
        (calculateAndSetPositionActual env self c1).cluster ∧
      (calculateAndSetPositionActual env self c2).self =
        (calculateAndSetPositionActual env self c1).self := by
  obtain ⟨hseed, hf⟩ := seed_and_finite_of_ok env self c1 hok
  have hseed2 : c2.seed ≠ 0 := hs ▸ hseed
  have hf2 : AllFinite c2.recHitFractions := hl ▸ hf
  rw [actual_of_allFinite env self c1 hseed hf, actual_of_allFinite env self c2 hseed2 hf2]
  simp only [writtenCluster, selfAfter, hs, hl, and_self]

/-! ## The loop over a collection -/

theorem positions_nil (env : Env) (self : Cluster3DPCACalculator) :
    calculateAndSetPositions env self [] = ⟨self, [], none⟩ := rfl

theorem positions_cons_thrown (env : Env) (self : Cluster3DPCACalculator)
    (cluster : PFCluster) (rest : List PFCluster) (ex : Exception)
    (h : (calculateAndSetPosition env self cluster).thrown = some ex) :
    calculateAndSetPositions env self (cluster :: rest) =
      ⟨(calculateAndSetPosition env self cluster).self,
        (calculateAndSetPosition env self cluster).cluster :: rest, some ex⟩ := by
  unfold calculateAndSetPosition at h
  simp only [calculateAndSetPositions, h]
  rfl

theorem positions_cons_ok (env : Env) (self : Cluster3DPCACalculator)
    (cluster : PFCluster) (rest : List PFCluster)
    (h : (calculateAndSetPosition env self cluster).thrown = none) :
    calculateAndSetPositions env self (cluster :: rest) =
      ⟨(calculateAndSetPositions env (calculateAndSetPosition env self cluster).self
          rest).self,
        (calculateAndSetPosition env self cluster).cluster ::
          (calculateAndSetPositions env (calculateAndSetPosition env self cluster).self
            rest).clusters,
        (calculateAndSetPositions env (calculateAndSetPosition env self cluster).self
          rest).thrown⟩ := by
  unfold calculateAndSetPosition at h
  simp only [calculateAndSetPositions, h]
  rfl

/-- Of the calculator, `calculateAndSetPositions` reads the denominator only. -/
theorem positions_indep (env : Env) (clusters : List PFCluster)
    (s1 s2 : Cluster3DPCACalculator) (hd : s1._logWeightDenom = s2._logWeightDenom) :
    (calculateAndSetPositions env s1 clusters).thrown =
        (calculateAndSetPositions env s2 clusters).thrown ∧
      (calculateAndSetPositions env s1 clusters).clusters =
        (calculateAndSetPositions env s2 clusters).clusters := by
  induction clusters generalizing s1 s2 with
  | nil => exact ⟨rfl, rfl⟩
  | cons c rest ih =>
    have hi := position_indep env s1 s2 c hd
    cases h1 : (calculateAndSetPosition env s1 c).thrown with
    | some ex =>
      have h2 : (calculateAndSetPosition env s2 c).thrown = some ex := by
        rw [← hi.1, h1]
      rw [positions_cons_thrown env s1 c rest ex h1,
        positions_cons_thrown env s2 c rest ex h2, hi.2.1]
      exact ⟨rfl, rfl⟩
    | none =>
      have h2 : (calculateAndSetPosition env s2 c).thrown = none := by
        rw [← hi.1, h1]
      have hd2 : (calculateAndSetPosition env s1 c).self._logWeightDenom =
          (calculateAndSetPosition env s2 c).self._logWeightDenom := by
        rw [position_self_denom, position_self_denom, hd]
      have := ih _ _ hd2
      rw [positions_cons_ok env s1 c rest h1, positions_cons_ok env s2 c rest h2]
      simp only [this.1, this.2, hi.2.1, and_self]

/-- The clusters that are processed without a throw come out as each would alone, and the
rest of the collection is processed as it would be from the start. -/
theorem positions_prefix (env : Env) (self : Cluster3DPCACalculator)
    (pre rest : List PFCluster)
    (hpre : ∀ p ∈ pre, (calculateAndSetPosition env self p).thrown = none) :
    (calculateAndSetPositions env self (pre ++ rest)).thrown =
        (calculateAndSetPositions env self rest).thrown ∧
      (calculateAndSetPositions env self (pre ++ rest)).clusters =
        pre.map (fun p => (calculateAndSetPosition env self p).cluster) ++
          (calculateAndSetPositions env self rest).clusters := by
  induction pre generalizing self with
  | nil => exact ⟨rfl, rfl⟩
  | cons c more ih =>
    have hc := hpre c (List.mem_cons_self _ _)
    have hd := position_self_denom env self c
    have hmore : ∀ p ∈ more,
        (calculateAndSetPosition env (calculateAndSetPosition env self c).self p).thrown =
          none := by
      intro p hp
      rw [(position_indep env _ self p hd).1]
      exact hpre p (List.mem_cons_of_mem _ hp)
    have h := ih (calculateAndSetPosition env self c).self hmore
    have hrest := positions_indep env rest (calculateAndSetPosition env self c).self self hd
    have hmap : more.map (fun p => (calculateAndSetPosition env
        (calculateAndSetPosition env self c).self p).cluster) =
        more.map (fun p => (calculateAndSetPosition env self p).cluster) := by
      apply List.map_congr_left
      intro p _
      exact (position_indep env _ self p hd).2.1
    rw [List.cons_append, positions_cons_ok env self c (more ++ rest) hc]
    simp only [h.1, h.2, hrest.1, hrest.2, hmap, List.map_cons, List.cons_append, and_self]

/-- A call leaves the seed and the hit fractions of the cluster as they were. -/
theorem actual_inputs_kept (env : Env) (self : Cluster3DPCACalculator)
    (cluster : PFCluster) :
    (calculateAndSetPositionActual env self cluster).cluster.seed = cluster.seed ∧
      (calculateAndSetPositionActual env self cluster).cluster.recHitFractions =
        cluster.recHitFractions := by
  by_cases hseed : cluster.seed = 0
  · rw [actual_of_null_seed env self cluster hseed]
    exact ⟨rfl, rfl⟩
  · rcases allFinite_or_first cluster.recHitFractions with hf | ⟨rhf, hr⟩
    · rw [actual_of_allFinite env self cluster hseed hf]
      exact ⟨rfl, rfl⟩
    · rw [actual_of_notFinite env self cluster hseed rhf hr]
      exact ⟨rfl, rfl⟩

/-- In `corruptCluster` the fraction of the hit 9 is the first of non-finite energy. -/
theorem corrupt_first :
    firstNotFinite corruptCluster.recHitFractions =
      some ⟨{ detId := 9, energy := Dbl.pinf,
              position := ⟨Dbl.fin 1, Dbl.fin 2, Dbl.fin 3⟩,
              layer := PFLayer.Layer.det 1 }, Dbl.fin 1⟩ := by
  norm_num [firstNotFinite, corruptCluster, freshCluster, mkHit, rh_energy, Dbl.mul,
    isNotFinite, List.find?]

/-- What `calculateAndSetPosition` does with `corruptCluster`. -/
theorem corrupt_position (env : Env) (self : Cluster3DPCACalculator) :
    (calculateAndSetPosition env self corruptCluster).thrown =
        some (Exception.PFClusterAlgo 9) ∧
      (calculateAndSetPosition env self corruptCluster).cluster = corruptCluster := by
  unfold calculateAndSetPosition
  rw [actual_of_notFinite env _ corruptCluster (by decide) _ corrupt_first]
  exact ⟨rfl, rfl⟩

/-- What `calculateAndSetPosition` does with `singleHitCluster`: it writes the energy 2. -/
theorem singleHit_position (env : Env) (self : Cluster3DPCACalculator) :
    (calculateAndSetPosition env self singleHitCluster).thrown = none ∧
      (calculateAndSetPosition env self singleHitCluster).cluster.energy = Dbl.fin 2 := by
  have hf : AllFinite singleHitCluster.recHitFractions := by
    simp [AllFinite, singleHitCluster, freshCluster, mkHit, rh_energy, Dbl.mul,
      isNotFinite]
  unfold calculateAndSetPosition
  rw [actual_of_allFinite env _ singleHitCluster (by decide) hf]
  refine ⟨rfl, ?_⟩
  simp [writtenCluster, foldLocals, stepLocals, singleHitCluster, freshCluster, mkHit,
    initLocals, rh_energy, Dbl.mul, Dbl.add, Dbl.gt, Dbl.lt]

/-- C12, the counterexample: in the collection `[corruptCluster, singleHitCluster]` the
first cluster throws, so the second is left as it was, with the energy 0; processed alone
from an empty accumulator it gets the energy 2. -/
theorem no_leak_counterexample :
    (calculateAndSetPositions (sampleEnv ⟨Dbl.fin 1, Dbl.fin 0, Dbl.fin 0⟩)
        (sampleCalculator (Dbl.fin 1)) [corruptCluster, singleHitCluster]).clusters =
        [corruptCluster, singleHitCluster] ∧
      singleHitCluster.energy = Dbl.fin 0 ∧
      (sampleCalculator (Dbl.fin 1))._pca.rows = [] ∧
      (calculateAndSetPosition (sampleEnv ⟨Dbl.fin 1, Dbl.fin 0, Dbl.fin 0⟩)
        (sampleCalculator (Dbl.fin 1)) singleHitCluster).thrown = none ∧
      (calculateAndSetPosition (sampleEnv ⟨Dbl.fin 1, Dbl.fin 0, Dbl.fin 0⟩)
        (sampleCalculator (Dbl.fin 1)) singleHitCluster).cluster.energy = Dbl.fin 2 ∧
      (calculateAndSetPosition (sampleEnv ⟨Dbl.fin 1, Dbl.fin 0, Dbl.fin 0⟩)
        (sampleCalculator (Dbl.fin 1)) singleHitCluster).cluster ≠ singleHitCluster := by
  have hc := corrupt_position (sampleEnv ⟨Dbl.fin 1, Dbl.fin 0, Dbl.fin 0⟩)
    (sampleCalculator (Dbl.fin 1))
  have hs := singleHit_position (sampleEnv ⟨Dbl.fin 1, Dbl.fin 0, Dbl.fin 0⟩)
    (sampleCalculator (Dbl.fin 1))
  refine ⟨?_, rfl, rfl, hs.1, hs.2, ?_⟩
  · rw [positions_cons_thrown _ _ _ _ _ hc.1, hc.2]
  · intro h
    have he := congrArg PFCluster.energy h
    rw [hs.2] at he
    simp [singleHitCluster, freshCluster] at he

/-- C12, amended: whatever rows the `TPrincipal` holds before, `calculateAndSetPosition`
ends the same way, with the same cluster and the same rows, and the rows held at
`MakePrincipals` are those of the fractions of this cluster.  In
`calculateAndSetPositions`, a cluster before which no cluster threw comes out as it does
when processed alone from an empty `TPrincipal`. -/
theorem no_leak (env : Env) (self : Cluster3DPCACalculator) (cluster : PFCluster)
    (pca1 pca2 : TPrincipal) :
    calculateAndSetPosition env { self with _pca := pca1 } cluster =
        calculateAndSetPosition env { self with _pca := pca2 } cluster ∧
      (calculateAndSetPosition env { self with _pca := pca1 } cluster).self._pca.rows =
        (if cluster.seed = 0 then []
          else replicatedRows env self (finitePrefix cluster.recHitFractions)) ∧
      ∀ pre post : List PFCluster,
        (∀ p ∈ pre,
          (calculateAndSetPosition env { self with _pca := ⟨[]⟩ } p).thrown = none) →
        ∃ tail,
          (calculateAndSetPositions env { self with _pca := pca1 }
            (pre ++ cluster :: post)).clusters =
            pre.map (fun p =>
                (calculateAndSetPosition env { self with _pca := ⟨[]⟩ } p).cluster) ++
              (calculateAndSetPosition env { self with _pca := ⟨[]⟩ } cluster).cluster ::
                tail := by
  refine ⟨rfl, ?_, ?_⟩
  · rw [calculateAndSetPosition_rows]
    have hc : replicatedRows env { self with _pca := pca1 }
        (finitePrefix cluster.recHitFractions) =
          replicatedRows env self (finitePrefix cluster.recHitFractions) :=
      replicatedRows_congr env { self with _pca := pca1 } self rfl _
    rw [hc]
  · intro pre post hpre
    have hi := positions_indep env (pre ++ cluster :: post) { self with _pca := pca1 }
      { self with _pca := ⟨[]⟩ } rfl
    have hp := positions_prefix env { self with _pca := ⟨[]⟩ } pre (cluster :: post) hpre
    rw [hi.2, hp.2]
    cases hc : (calculateAndSetPosition env { self with _pca := ⟨[]⟩ } cluster).thrown with
    | some ex =>
      rw [positions_cons_thrown env _ cluster post ex hc]
      exact ⟨post, rfl⟩
    | none =>
      rw [positions_cons_ok env _ cluster post hc]
      exact ⟨_, rfl⟩

/-- C13: when `calculateAndSetPosition` succeeds on a cluster, a second call on the
cluster it left, with the calculator it left, succeeds too and leaves the same cluster;
and two clusters with the same seed and hit fractions come out equal, whatever their
output fields were before. -/
theorem idempotent (env : Env) (self : Cluster3DPCACalculator) (cluster : PFCluster)
    (hok : (calculateAndSetPosition env self cluster).thrown = none) :
    (calculateAndSetPosition env (calculateAndSetPosition env self cluster).self
        (calculateAndSetPosition env self cluster).cluster).thrown = none ∧
      (calculateAndSetPosition env (calculateAndSetPosition env self cluster).self
        (calculateAndSetPosition env self cluster).cluster).cluster =
        (calculateAndSetPosition env self cluster).cluster ∧
      ∀ other : PFCluster, other.seed = cluster.seed →
        other.recHitFractions = cluster.recHitFractions →
        (calculateAndSetPosition env self other).thrown = none ∧
          (calculateAndSetPosition env self other).cluster =
            (calculateAndSetPosition env self cluster).cluster := by
  have hdep : ∀ other : PFCluster, other.seed = cluster.seed →
      other.recHitFractions = cluster.recHitFractions →
      (calculateAndSetPosition env self other).thrown = none ∧
        (calculateAndSetPosition env self other).cluster =
          (calculateAndSetPosition env self cluster).cluster := by
    intro other hs hl
    have h := actual_cluster_of_inputs env { self with _pca := self._pca.Clear } cluster
      other hs.symm hl.symm hok
    exact ⟨h.1, h.2.1⟩
  have hk := actual_inputs_kept env { self with _pca := self._pca.Clear } cluster
  have h2 := hdep (calculateAndSetPosition env self cluster).cluster hk.1 hk.2
  have hi := position_indep env (calculateAndSetPosition env self cluster).self self
    (calculateAndSetPosition env self cluster).cluster (position_self_denom env self cluster)
  exact ⟨hi.1.trans h2.1, hi.2.1.trans h2.2, hdep⟩

/-- Witness of C13: the scenario cluster. -/
theorem idempotent_witness :
    (calculateAndSetPosition (sampleEnv ⟨Dbl.fin 1, Dbl.fin 0, Dbl.fin 0⟩)
        (sampleCalculator (Dbl.fin 2)) scenarioCluster).thrown = none ∧
      (calculateAndSetPosition (sampleEnv ⟨Dbl.fin 1, Dbl.fin 0, Dbl.fin 0⟩)
        (calculateAndSetPosition (sampleEnv ⟨Dbl.fin 1, Dbl.fin 0, Dbl.fin 0⟩)
          (sampleCalculator (Dbl.fin 2)) scenarioCluster).self
        (calculateAndSetPosition (sampleEnv ⟨Dbl.fin 1, Dbl.fin 0, Dbl.fin 0⟩)
          (sampleCalculator (Dbl.fin 2)) scenarioCluster).cluster).cluster =
        (calculateAndSetPosition (sampleEnv ⟨Dbl.fin 1, Dbl.fin 0, Dbl.fin 0⟩)
          (sampleCalculator (Dbl.fin 2)) scenarioCluster).cluster := by
  have hok : (calculateAndSetPosition (sampleEnv ⟨Dbl.fin 1, Dbl.fin 0, Dbl.fin 0⟩)
      (sampleCalculator (Dbl.fin 2)) scenarioCluster).thrown = none := by
    unfold calculateAndSetPosition
    rw [actual_of_allFinite _ _ _ (by decide) scenario_allFinite]
  exact ⟨hok, (idempotent _ _ _ hok).2.1⟩

/-- C14: `calculateAndSetPositions` takes the clusters in order and stops at the first
one whose own computation throws: the call on the collection then throws that exception,
the clusters before it hold the outcome of their own computation, and that cluster and
those after it are as they were.  When no cluster throws, the call throws nothing and
every cluster holds the outcome of its own computation. -/
theorem stops_at_first_failure (env : Env) (self : Cluster3DPCACalculator)
    (clusters : List PFCluster) :
    (∀ (pre post : List PFCluster) (cluster : PFCluster) (ex : Exception),
        clusters = pre ++ cluster :: post →
        (∀ p ∈ pre, (calculateAndSetPosition env self p).thrown = none) →
        (calculateAndSetPosition env self cluster).thrown = some ex →
        (calculateAndSetPositions env self clusters).thrown = some ex ∧
          (calculateAndSetPositions env self clusters).clusters =
            pre.map (fun p => (calculateAndSetPosition env self p).cluster) ++
              cluster :: post) ∧
      ((∀ p ∈ clusters, (calculateAndSetPosition env self p).thrown = none) →
        (calculateAndSetPositions env self clusters).thrown = none ∧
          (calculateAndSetPositions env self clusters).clusters =
            clusters.map (fun p => (calculateAndSetPosition env self p).cluster)) := by
  constructor
  · intro pre post cluster ex hsplit hpre hc
    have hp := positions_prefix env self pre (cluster :: post) hpre
    have hun : (calculateAndSetPosition env self cluster).cluster = cluster := by
      unfold calculateAndSetPosition at hc ⊢
      exact cluster_unchanged_of_thrown env _ cluster (by rw [hc]; simp)
    rw [hsplit, hp.1, hp.2, positions_cons_thrown env self cluster post ex hc, hun]
    exact ⟨rfl, rfl⟩
  · intro hall
    have hp := positions_prefix env self clusters [] hall
    rw [List.append_nil] at hp
    rw [hp.1, hp.2, positions_nil]
    exact ⟨rfl, List.append_nil _⟩

/-- Witness of C14: in `[singleHitCluster, corruptCluster, faintCluster]` the second
cluster throws for its hit 9; the first holds its energy 2, the other two are as
they were. -/
theorem stops_at_first_failure_witness :
    (calculateAndSetPositions (sampleEnv ⟨Dbl.fin 1, Dbl.fin 0, Dbl.fin 0⟩)
        (sampleCalculator (Dbl.fin 1))
        [singleHitCluster, corruptCluster, faintCluster]).thrown =
        some (Exception.PFClusterAlgo 9) ∧
      (calculateAndSetPositions (sampleEnv ⟨Dbl.fin 1, Dbl.fin 0, Dbl.fin 0⟩)
        (sampleCalculator (Dbl.fin 1))
        [singleHitCluster, corruptCluster, faintCluster]).clusters =
        [(calculateAndSetPosition (sampleEnv ⟨Dbl.fin 1, Dbl.fin 0, Dbl.fin 0⟩)
            (sampleCalculator (Dbl.fin 1)) singleHitCluster).cluster,
          corruptCluster, faintCluster] ∧
      (calculateAndSetPosition (sampleEnv ⟨Dbl.fin 1, Dbl.fin 0, Dbl.fin 0⟩)
        (sampleCalculator (Dbl.fin 1)) singleHitCluster).cluster.energy = Dbl.fin 2 := by
  have h := (stops_at_first_failure (sampleEnv ⟨Dbl.fin 1, Dbl.fin 0, Dbl.fin 0⟩)
    (sampleCalculator (Dbl.fin 1)) [singleHitCluster, corruptCluster, faintCluster]).1
    [singleHitCluster] [faintCluster] corruptCluster (Exception.PFClusterAlgo 9) rfl
    (by
      intro p hp
      rw [List.mem_singleton.mp hp]
      exact (singleHit_position _ _).1)
    (corrupt_position _ _).1
  exact ⟨h.1, h.2, (singleHit_position _ _).2⟩

/-- C17: a calculator in which `posCalcNCrystals` and `minAllowedNormalization` are
replaced by any other values ends every call the same way and leaves the same clusters:
in `calculateAndSetPositionActual`, in `calculateAndSetPosition` and in
`calculateAndSetPositions`. -/
theorem unused_configuration (env : Env) (self : Cluster3DPCACalculator)
    (posCalcNCrystals : Int) (minAllowedNorm : Dbl) (cluster : PFCluster)
    (clusters : List PFCluster) :
    ((calculateAndSetPositionActual env
          { self with _posCalcNCrystals := posCalcNCrystals,
                      _minAllowedNorm := minAllowedNorm } cluster).thrown =
        (calculateAndSetPositionActual env self cluster).thrown ∧
      (calculateAndSetPositionActual env
          { self with _posCalcNCrystals := posCalcNCrystals,
                      _minAllowedNorm := minAllowedNorm } cluster).cluster =
        (calculateAndSetPositionActual env self cluster).cluster) ∧
      ((calculateAndSetPosition env
          { self with _posCalcNCrystals := posCalcNCrystals,
                      _minAllowedNorm := minAllowedNorm } cluster).thrown =
        (calculateAndSetPosition env self cluster).thrown ∧
      (calculateAndSetPosition env
          { self with _posCalcNCrystals := posCalcNCrystals,
                      _minAllowedNorm := minAllowedNorm } cluster).cluster =
        (calculateAndSetPosition env self cluster).cluster) ∧
      ((calculateAndSetPositions env
          { self with _posCalcNCrystals := posCalcNCrystals,
                      _minAllowedNorm := minAllowedNorm } clusters).thrown =
        (calculateAndSetPositions env self clusters).thrown ∧
      (calculateAndSetPositions env
          { self with _posCalcNCrystals := posCalcNCrystals,
                      _minAllowedNorm := minAllowedNorm } clusters).clusters =
        (calculateAndSetPositions env self clusters).clusters) := by
  have h1 := actual_indep env
    { self with _posCalcNCrystals := posCalcNCrystals, _minAllowedNorm := minAllowedNorm }
    self cluster rfl rfl
  have h2 := position_indep env
    { self with _posCalcNCrystals := posCalcNCrystals, _minAllowedNorm := minAllowedNorm }
    self cluster rfl
  have h3 := positions_indep env clusters
    { self with _posCalcNCrystals := posCalcNCrystals, _minAllowedNorm := minAllowedNorm }
    self rfl
  exact ⟨⟨h1.1, h1.2.1⟩, ⟨h2.1, h2.2.1⟩, h3⟩

/-- C18: after a call that throws nothing, the loop has left `cl_time` and
`cl_timeweight` at the zero they were declared with, and the time written is their
quotient `0/0`, which is NaN, whatever the hit fractions are. -/
theorem time_is_zero_over_zero (env : Env) (self : Cluster3DPCACalculator)
    (cluster : PFCluster)
    (hok : (calculateAndSetPositionActual env self cluster).thrown = none) :
    (recHitLoop env cluster.seed cluster.recHitFractions initLocals self).1.cl_time =
        Dbl.fin 0 ∧
      (recHitLoop env cluster.seed cluster.recHitFractions initLocals self).1.cl_timeweight =
        Dbl.fin 0 ∧
      (calculateAndSetPositionActual env self cluster).cluster.time =
        Dbl.div (Dbl.fin 0) (Dbl.fin 0) ∧
      (calculateAndSetPositionActual env self cluster).cluster.time = Dbl.nan := by
  obtain ⟨hseed, hf⟩ := seed_and_finite_of_ok env self cluster hok
  have ht := foldLocals_cl_time cluster.seed cluster.recHitFractions initLocals
  rw [actual_of_allFinite env self cluster hseed hf,
    recHitLoop_locals env cluster.seed cluster.recHitFractions initLocals self hf]
  simp only [writtenCluster, ht.1, ht.2]
  refine ⟨rfl, rfl, rfl, ?_⟩
  simp [initLocals, Dbl.div]

/-- Witness of C18: the time written in the scenario is NaN. -/
theorem time_is_zero_over_zero_witness :
    (calculateAndSetPositionActual (sampleEnv ⟨Dbl.fin 1, Dbl.fin 0, Dbl.fin 0⟩)
        (sampleCalculator (Dbl.fin 2)) scenarioCluster).thrown = none ∧
      (calculateAndSetPositionActual (sampleEnv ⟨Dbl.fin 1, Dbl.fin 0, Dbl.fin 0⟩)
        (sampleCalculator (Dbl.fin 2)) scenarioCluster).cluster.time = Dbl.nan := by
  have hok : (calculateAndSetPositionActual (sampleEnv ⟨Dbl.fin 1, Dbl.fin 0, Dbl.fin 0⟩)
      (sampleCalculator (Dbl.fin 2)) scenarioCluster).thrown = none := by
    rw [actual_of_allFinite _ _ _ (by decide) scenario_allFinite]
  exact ⟨hok, (time_is_zero_over_zero _ _ _ hok).2.2.2⟩

/-! ## The rows held at `MakePrincipals` -/

theorem rh_energy_sameButYZ {a b : PFRecHitFraction} (h : SameButYZ a b) :
    rh_energy a = rh_energy b := by
  unfold rh_energy
  rw [h.1, h.2.2.1]

theorem stepLocals_agree (seed : DetId) {a b : PFRecHitFraction} (h : SameButYZ a b)
    {loc1 loc2 : Locals} (hl : loc1.agree loc2) :
    (stepLocals seed a loc1).agree (stepLocals seed b loc2) := by
  obtain ⟨h1, h2, h3, h4, h5⟩ := hl
  have he := rh_energy_sameButYZ h
  have hm1 := stepLocals_max seed a loc1
  have hm2 := stepLocals_max seed b loc2
  refine ⟨?_, ?_, ?_, ?_, ?_⟩
  · rw [stepLocals_cl_energy, stepLocals_cl_energy, h1, he]
  · rw [(stepLocals_cl_time seed a loc1).1, (stepLocals_cl_time seed b loc2).1, h2]
  · rw [(stepLocals_cl_time seed a loc1).2, (stepLocals_cl_time seed b loc2).2, h3]
  · rw [hm1.1, hm2.1, he, h4]
  · rw [hm1.2, hm2.2, he, h4, h5, h.2.2.2.1]

theorem stepSelf_sameButYZ (env : Env) {a b : PFRecHitFraction} (h : SameButYZ a b)
    (self : Cluster3DPCACalculator) : stepSelf env a self = stepSelf env b self := by
  have he := rh_energy_sameButYZ h
  simp only [stepSelf, replicationCount, pcavars, he, h.2.2.2.2]

/-- The loop over two lists of fractions that differ at most in the y and z coordinates
of the hits ends with locals that agree in all but `refseed`, with the same calculator
and with the same exception. -/
theorem recHitLoop_sameButYZ (env : Env) (seed : DetId) {l1 l2 : List PFRecHitFraction}
    (h : List.Forall₂ SameButYZ l1 l2) (loc1 loc2 : Locals) (hl : loc1.agree loc2)
    (self : Cluster3DPCACalculator) :
    (recHitLoop env seed l1 loc1 self).1.agree (recHitLoop env seed l2 loc2 self).1 ∧
      (recHitLoop env seed l1 loc1 self).2 = (recHitLoop env seed l2 loc2 self).2 := by
  induction h generalizing loc1 loc2 self with
  | nil => exact ⟨hl, rfl⟩
  | @cons a b r1 r2 hab _ ih =>
    have he := rh_energy_sameButYZ hab
    cases hfa : isNotFinite (rh_energy a) with
    | true =>
      have hfb : isNotFinite (rh_energy b) = true := he ▸ hfa
      refine ⟨?_, ?_⟩
      · simp only [recHitLoop, hfa, hfb, if_true]
        obtain ⟨h1, h2, h3, h4, h5⟩ := hl
        split_ifs <;> exact ⟨h1, h2, h3, h4, h5⟩
      · rw [recHitLoop_cons_notFinite env seed a r1 loc1 self hfa,
          recHitLoop_cons_notFinite env seed b r2 loc2 self hfb, hab.2.1]
    | false =>
      have hfb : isNotFinite (rh_energy b) = false := he ▸ hfa
      rw [recHitLoop_cons_finite env seed a r1 loc1 self hfa,
        recHitLoop_cons_finite env seed b r2 loc2 self hfb, stepSelf_sameButYZ env hab]
      exact ih _ _ (stepLocals_agree seed hab hl) _

/-- Two clusters that differ at most in the y and z coordinates of their hits: the calls
on them end the same way, leave the same calculator and write the same fields. -/
theorem actual_sameButYZ (env : Env) (self : Cluster3DPCACalculator) (cluster : PFCluster)
    (l2 : List PFRecHitFraction) (h : List.Forall₂ SameButYZ cluster.recHitFractions l2) :
    ((calculateAndSetPositionActual env self cluster).thrown = none ↔
        (calculateAndSetPositionActual env self
          { cluster with recHitFractions := l2 }).thrown = none) ∧
      (∀ id, (calculateAndSetPositionActual env self cluster).thrown =
          some (Exception.PFClusterAlgo id) ↔
        (calculateAndSetPositionActual env self
          { cluster with recHitFractions := l2 }).thrown =
          some (Exception.PFClusterAlgo id)) ∧
      ((calculateAndSetPositionActual env self cluster).thrown =
          some (Exception.ClusterWithNoSeed cluster) ↔
        (calculateAndSetPositionActual env self
          { cluster with recHitFractions := l2 }).thrown =
          some (Exception.ClusterWithNoSeed { cluster with recHitFractions := l2 })) ∧
      (calculateAndSetPositionActual env self { cluster with recHitFractions := l2 }).self =
        (calculateAndSetPositionActual env self cluster).self ∧
      (calculateAndSetPositionActual env self
          { cluster with recHitFractions := l2 }).cluster.energy =
        (calculateAndSetPositionActual env self cluster).cluster.energy ∧
      (calculateAndSetPositionActual env self
          { cluster with recHitFractions := l2 }).cluster.time =
        (calculateAndSetPositionActual env self cluster).cluster.time ∧
      (calculateAndSetPositionActual env self
          { cluster with recHitFractions := l2 }).cluster.layer =
        (calculateAndSetPositionActual env self cluster).cluster.layer ∧
      (calculateAndSetPositionActual env self
          { cluster with recHitFractions := l2 }).cluster.position =
        (calculateAndSetPositionActual env self cluster).cluster.position ∧
      (calculateAndSetPositionActual env self
          { cluster with recHitFractions := l2 }).cluster.axis =
        (calculateAndSetPositionActual env self cluster).cluster.axis ∧
      (calculateAndSetPositionActual env self
          { cluster with recHitFractions := l2 }).cluster.posrep =
        (calculateAndSetPositionActual env self cluster).cluster.posrep := by
  by_cases hseed : cluster.seed = 0
  · rw [actual_of_null_seed env self cluster hseed,
      actual_of_null_seed env self { cluster with recHitFractions := l2 } hseed]
    simp
  · have key := recHitLoop_sameButYZ env cluster.seed h initLocals initLocals
      ⟨rfl, rfl, rfl, rfl, rfl⟩ self
    have kt := recHitLoop_thrown env cluster.seed cluster.recHitFractions initLocals self
    unfold calculateAndSetPositionActual
    simp only [if_neg hseed]
    revert key kt
    generalize recHitLoop env cluster.seed cluster.recHitFractions initLocals self = r1
    generalize recHitLoop env cluster.seed l2 initLocals self = r2
    obtain ⟨loc1, s1, t1⟩ := r1
    obtain ⟨loc2, s2, t2⟩ := r2
    rintro ⟨⟨h1, h2, h3, _, h5⟩, heq⟩ kt
    simp only [Prod.mk.injEq] at heq
    obtain ⟨rfl, rfl⟩ := heq
    simp only at h1 h2 h3 h5 kt
    cases t1 with
    | some ex =>
      cases hfn : firstNotFinite cluster.recHitFractions with
      | none => rw [hfn] at kt; simp at kt
      | some rhf =>
        rw [hfn] at kt
        simp only [Option.map_some', Option.some.injEq] at kt
        subst kt
        simp
    | none => simp [h1, h2, h3, h5]

/-- Every row is the x coordinate of a hit of the list, three times. -/
theorem replicatedRows_mem (env : Env) (self : Cluster3DPCACalculator)
    (l : List PFRecHitFraction) (row : Row) (hrow : row ∈ replicatedRows env self l) :
    ∃ rhf ∈ l, row = ⟨rhf.recHitRef.position.x, rhf.recHitRef.position.x,
      rhf.recHitRef.position.x⟩ := by
  induction l with
  | nil => simp [replicatedRows] at hrow
  | cons rhf rest ih =>
    simp only [replicatedRows, List.mem_append] at hrow
    rcases hrow with hr | hr
    · exact ⟨rhf, List.mem_cons_self _ _, (List.mem_replicate.mp hr).2⟩
    · obtain ⟨x, hx, hxe⟩ := ih hr
      exact ⟨x, List.mem_cons_of_mem _ hx, hxe⟩

/-- Rows with three equal entries have three equal arithmetic means. -/
theorem arithmeticMean_equal_entries (rows : List Row)
    (h : ∀ row ∈ rows, row.v0 = row.v1 ∧ row.v1 = row.v2) :
    arithmeticMean rows 0 = arithmeticMean rows 1 ∧
      arithmeticMean rows 1 = arithmeticMean rows 2 := by
  have h01 : rows.map (fun r => r.get 0) = rows.map (fun r => r.get 1) :=
    List.map_congr_left (fun r hr => (h r hr).1)
  have h12 : rows.map (fun r => r.get 1) = rows.map (fun r => r.get 2) :=
    List.map_congr_left (fun r hr => (h r hr).2)
  unfold arithmeticMean sumEntries
  rw [h01, h12]
  exact ⟨rfl, rfl⟩

/-- C16: every row that `calculateAndSetPosition` hands to the `TPrincipal` is the x
coordinate of a hit of the cluster, three times.  So a cluster whose hits have other y
and z coordinates, and are the same otherwise, ends the call the same way, with the same
calculator and the same energy, time, layer, position, axis and derived point.  With
the arithmetic mean for `GetMeanValues`, the position written has three equal
coordinates when it is the mean of at least one row. -/
theorem only_x_is_read (env : Env) (self : Cluster3DPCACalculator) (cluster : PFCluster)
    (l2 : List PFRecHitFraction) (h : List.Forall₂ SameButYZ cluster.recHitFractions l2) :
    (∀ row ∈ (calculateAndSetPosition env self cluster).self._pca.rows,
        ∃ rhf ∈ cluster.recHitFractions,
          row = ⟨rhf.recHitRef.position.x, rhf.recHitRef.position.x,
            rhf.recHitRef.position.x⟩) ∧
      (((calculateAndSetPosition env self cluster).thrown = none ↔
          (calculateAndSetPosition env self
            { cluster with recHitFractions := l2 }).thrown = none) ∧
        (∀ id, (calculateAndSetPosition env self cluster).thrown =
            some (Exception.PFClusterAlgo id) ↔
          (calculateAndSetPosition env self
            { cluster with recHitFractions := l2 }).thrown =
            some (Exception.PFClusterAlgo id)) ∧
        ((calculateAndSetPosition env self cluster).thrown =
            some (Exception.ClusterWithNoSeed cluster) ↔
          (calculateAndSetPosition env self
            { cluster with recHitFractions := l2 }).thrown =
            some (Exception.ClusterWithNoSeed { cluster with recHitFractions := l2 })) ∧
        (calculateAndSetPosition env self { cluster with recHitFractions := l2 }).self =
          (calculateAndSetPosition env self cluster).self ∧
        (calculateAndSetPosition env self
            { cluster with recHitFractions := l2 }).cluster.energy =
          (calculateAndSetPosition env self cluster).cluster.energy ∧
        (calculateAndSetPosition env self
            { cluster with recHitFractions := l2 }).cluster.time =
          (calculateAndSetPosition env self cluster).cluster.time ∧
        (calculateAndSetPosition env self
            { cluster with recHitFractions := l2 }).cluster.layer =
          (calculateAndSetPosition env self cluster).cluster.layer ∧
        (calculateAndSetPosition env self
            { cluster with recHitFractions := l2 }).cluster.position =
          (calculateAndSetPosition env self cluster).cluster.position ∧
        (calculateAndSetPosition env self
            { cluster with recHitFractions := l2 }).cluster.axis =
          (calculateAndSetPosition env self cluster).cluster.axis ∧
        (calculateAndSetPosition env self
            { cluster with recHitFractions := l2 }).cluster.posrep =
          (calculateAndSetPosition env self cluster).cluster.posrep) ∧
      (env.GetMeanValues = arithmeticMean →
        (calculateAndSetPosition env self cluster).thrown = none →
        0 < (calculateAndSetPosition env self cluster).self._pca.rows.length →
        (calculateAndSetPosition env self cluster).cluster.position.x =
            (calculateAndSetPosition env self cluster).cluster.position.y ∧
          (calculateAndSetPosition env self cluster).cluster.position.y =
            (calculateAndSetPosition env self cluster).cluster.position.z) := by
  have hrows : ∀ row ∈ (calculateAndSetPosition env self cluster).self._pca.rows,
      ∃ rhf ∈ cluster.recHitFractions,
        row = ⟨rhf.recHitRef.position.x, rhf.recHitRef.position.x,
          rhf.recHitRef.position.x⟩ := by
    intro row hrow
    rw [calculateAndSetPosition_rows] at hrow
    split_ifs at hrow with hseed
    · simp at hrow
    · obtain ⟨rhf, hmem, he⟩ := replicatedRows_mem env self _ row hrow
      exact ⟨rhf, List.takeWhile_subset _ hmem, he⟩
  refine ⟨hrows, actual_sameButYZ env _ cluster l2 h, ?_⟩
  intro hmean hok _
  have hp := position_of_ok env { self with _pca := self._pca.Clear } cluster hok
  have hm := arithmeticMean_equal_entries
    (calculateAndSetPosition env self cluster).self._pca.rows (by
      intro row hrow
      obtain ⟨rhf, _, he⟩ := hrows row hrow
      rw [he]
      exact ⟨rfl, rfl⟩)
  unfold calculateAndSetPosition at hm ⊢
  rw [hp, hmean]
  exact hm

/-- Witness of C16: the scenario cluster and the one with its hits moved to (1,7,8) and
(5,9,-3) get the same energy, layer, position and axis. -/
theorem only_x_is_read_witness :
    List.Forall₂ SameButYZ scenarioCluster.recHitFractions
        movedScenarioCluster.recHitFractions ∧
      (calculateAndSetPosition (sampleEnv ⟨Dbl.fin 1, Dbl.fin 0, Dbl.fin 0⟩)
          (sampleCalculator (Dbl.fin 2)) movedScenarioCluster).cluster.energy =
        (calculateAndSetPosition (sampleEnv ⟨Dbl.fin 1, Dbl.fin 0, Dbl.fin 0⟩)
          (sampleCalculator (Dbl.fin 2)) scenarioCluster).cluster.energy ∧
      (calculateAndSetPosition (sampleEnv ⟨Dbl.fin 1, Dbl.fin 0, Dbl.fin 0⟩)
          (sampleCalculator (Dbl.fin 2)) movedScenarioCluster).cluster.layer =
        (calculateAndSetPosition (sampleEnv ⟨Dbl.fin 1, Dbl.fin 0, Dbl.fin 0⟩)
          (sampleCalculator (Dbl.fin 2)) scenarioCluster).cluster.layer ∧
      (calculateAndSetPosition (sampleEnv ⟨Dbl.fin 1, Dbl.fin 0, Dbl.fin 0⟩)
          (sampleCalculator (Dbl.fin 2)) movedScenarioCluster).cluster.position =
        (calculateAndSetPosition (sampleEnv ⟨Dbl.fin 1, Dbl.fin 0, Dbl.fin 0⟩)
          (sampleCalculator (Dbl.fin 2)) scenarioCluster).cluster.position ∧
      (calculateAndSetPosition (sampleEnv ⟨Dbl.fin 1, Dbl.fin 0, Dbl.fin 0⟩)
          (sampleCalculator (Dbl.fin 2)) movedScenarioCluster).cluster.axis =
        (calculateAndSetPosition (sampleEnv ⟨Dbl.fin 1, Dbl.fin 0, Dbl.fin 0⟩)
          (sampleCalculator (Dbl.fin 2)) scenarioCluster).cluster.axis := by
  have hrel : List.Forall₂ SameButYZ scenarioCluster.recHitFractions
      movedScenarioCluster.recHitFractions :=
    List.Forall₂.cons ⟨rfl, rfl, rfl, rfl, rfl⟩
      (List.Forall₂.cons ⟨rfl, rfl, rfl, rfl, rfl⟩ List.Forall₂.nil)
  have h := (only_x_is_read (sampleEnv ⟨Dbl.fin 1, Dbl.fin 0, Dbl.fin 0⟩)
    (sampleCalculator (Dbl.fin 2)) scenarioCluster movedScenarioCluster.recHitFractions
    hrel).2.1
  exact ⟨hrel, h.2.2.2.2.1, h.2.2.2.2.2.2.1, h.2.2.2.2.2.2.2.1, h.2.2.2.2.2.2.2.2.1⟩

end Cluster3DPCA

